import Mathlib

/-!
Verification development for the tealer TEAL static analyzer.

This file embeds, as executable Lean definitions, the parts of the tealer
code base relevant to the properties under scrutiny:

* `tealer/teal/instructions/parse_transaction_field.py` — the integer
  immediate parser `_parse_int`, the fixed field table
  `TX_FIELD_TXT_TO_OBJECT` and `parse_transaction_field`;
* `tealer/teal/parse_teal.py` — the four-pass parser (`_first_pass`,
  `_second_pass`, `create_bb`, `_fourth_pass`), `_add_basic_blocks_idx`,
  `_identify_subroutine_blocks`, `_verify_version`,
  `_detect_contract_type`, `_fill_intc_bytec_info` and `parse_teal`;
* `tealer/__main__.py` — the JSON output shape built by `handle_output`.

Python strings are modelled at the character level (`List Char`), which
matches Python's view of a `str` as a sequence of characters.  Python
dictionaries are modelled as functions with pointwise update, Python
exceptions and `sys.exit` as `Except` error values.
-/

namespace TealerSpec

/-! ## Python string primitives (character-level models) -/

/-- Model of Python `s.startswith(p)`: `p` is a prefix of `s`. -/
def pyStartswith (p s : List Char) : Bool :=
  List.isPrefixOf p s

/-- Characters treated as whitespace by Python `str.strip()` (the common ones). -/
def pyIsSpace (c : Char) : Bool :=
  c = ' ' || c = '\t' || c = '\n' || c = '\r'

/-- Model of Python `s.strip()`: remove leading and trailing whitespace. -/
def pyStrip (s : List Char) : List Char :=
  ((s.dropWhile pyIsSpace).reverse.dropWhile pyIsSpace).reverse

/-- Model of Python `s.replace(" ", "")`: remove every space character. -/
def pyRemoveSpaces (s : List Char) : List Char :=
  s.filter (fun c => !(c = ' '))

/-- Model of Python `s.splitlines()` for newline-separated text: split on
the newline character; the empty string yields no lines, and a trailing
newline does not produce a final empty line. -/
def pySplitlines (s : List Char) : List (List Char) :=
  if s = [] then []
  else
    let parts := s.splitOn '\n'
    if parts.getLast? = some [] then parts.dropLast else parts

/-! ## `_parse_int` (tealer/teal/instructions/parse_transaction_field.py) -/

/-- Value of a digit character in a given base (hex digits are accepted in
either case), `none` when the character is not a digit of that base. -/
def digitVal (base : Nat) (c : Char) : Option Nat :=
  let v : Option Nat :=
    if '0' ≤ c ∧ c ≤ '9' then some (c.toNat - '0'.toNat)
    else if 'a' ≤ c ∧ c ≤ 'f' then some (10 + c.toNat - 'a'.toNat)
    else if 'A' ≤ c ∧ c ≤ 'F' then some (10 + c.toNat - 'A'.toNat)
    else none
  match v with
  | some n => if n < base then some n else none
  | none => none

/-- Modelled from the spec: Python's built-in `int(x, base)` (the repository
relies on the Python runtime for it), restricted to plain digit strings —
the form numeric immediates take.  A non-empty all-digit string is read in
the given base; anything else is a `ValueError`, modelled as `none`. -/
def int_of_base (base : Nat) (s : List Char) : Option Nat :=
  if s = [] then none
  else
    s.foldl
      (fun acc c =>
        match acc, digitVal base c with
        | some n, some d => some (n * base + d)
        | _, _ => none)
      (some 0)

/-- Embedding of `_parse_int` (parse_transaction_field.py, lines 85-104):
a `0x` prefix selects base 16 (on the rest of the string), any other
leading `0` selects base 8 (on the whole string), otherwise base 10. -/
def _parse_int (x : List Char) : Option Nat :=
  if pyStartswith "0x".data x then int_of_base 16 (x.drop 2)
  else if pyStartswith "0".data x then int_of_base 8 x
  else int_of_base 10 x

/-! ## Transaction fields (tealer/teal/instructions/parse_transaction_field.py) -/

/-- The five indexed array transaction-field classes of
`transaction_field.py`. -/
inductive TxnArrayField where
  | Accounts
  | ApplicationArgs
  | Applications
  | Assets
  | Logs
  deriving DecidableEq, Repr

/-- The nullary transaction-field classes of `transaction_field.py`, one
constructor per class, named exactly as the class (and as the key in
`TX_FIELD_TXT_TO_OBJECT`). -/
inductive TxnScalarField where
  | Sender | Fee | FirstValid | FirstValidTime | LastValid | Note | Lease
  | Receiver | Amount | CloseRemainderTo | VotePK | SelectionPK | VoteFirst
  | VoteLast | VoteKeyDilution | Type | TypeEnum | XferAsset | AssetAmount
  | AssetSender | AssetReceiver | AssetCloseTo | GroupIndex | TxID
  | ApplicationID | OnCompletion | NumAppArgs | NumAccounts
  | NumApplications | NumAssets | ApprovalProgram | ClearStateProgram
  | RekeyTo | ConfigAsset | ConfigAssetTotal | ConfigAssetDecimals
  | ConfigAssetDefaultFrozen | ConfigAssetUnitName | ConfigAssetName
  | ConfigAssetURL | ConfigAssetMetadataHash | ConfigAssetManager
  | ConfigAssetReserve | ConfigAssetFreeze | ConfigAssetClawback
  | FreezeAsset | FreezeAssetAccount | FreezeAssetFrozen | GlobalNumUint
  | GlobalNumByteSlice | LocalNumUint | LocalNumByteSlice
  | ExtraProgramPages | Nonparticipation | NumLogs | CreatedAssetID
  | CreatedApplicationID | LastLog | StateProofPK
  deriving DecidableEq, Repr

/-- A transaction field: one of the five array fields carrying an index
(`-1` being the sentinel for "index taken from the stack"), or a nullary
field. -/
inductive TransactionField where
  | arrayField (f : TxnArrayField) (idx : Int)
  | scalarField (f : TxnScalarField)
  deriving DecidableEq, Repr

/-- The `Accounts(idx)` field object. -/
def TransactionField.Accounts (idx : Int) : TransactionField :=
  .arrayField .Accounts idx

/-- The `ApplicationArgs(idx)` field object. -/
def TransactionField.ApplicationArgs (idx : Int) : TransactionField :=
  .arrayField .ApplicationArgs idx

/-- The `Applications(idx)` field object. -/
def TransactionField.Applications (idx : Int) : TransactionField :=
  .arrayField .Applications idx

/-- The `Assets(idx)` field object. -/
def TransactionField.Assets (idx : Int) : TransactionField :=
  .arrayField .Assets idx

/-- The `Logs(idx)` field object. -/
def TransactionField.Logs (idx : Int) : TransactionField :=
  .arrayField .Logs idx

/-- Each nullary field class, as a `TransactionField` value under its own
name. -/
def TransactionField.Sender : TransactionField := .scalarField .Sender
def TransactionField.Fee : TransactionField := .scalarField .Fee
def TransactionField.FirstValid : TransactionField := .scalarField .FirstValid
def TransactionField.FirstValidTime : TransactionField := .scalarField .FirstValidTime
def TransactionField.LastValid : TransactionField := .scalarField .LastValid
def TransactionField.Note : TransactionField := .scalarField .Note
def TransactionField.Lease : TransactionField := .scalarField .Lease
def TransactionField.Receiver : TransactionField := .scalarField .Receiver
def TransactionField.Amount : TransactionField := .scalarField .Amount
def TransactionField.CloseRemainderTo : TransactionField := .scalarField .CloseRemainderTo
def TransactionField.VotePK : TransactionField := .scalarField .VotePK
def TransactionField.SelectionPK : TransactionField := .scalarField .SelectionPK
def TransactionField.VoteFirst : TransactionField := .scalarField .VoteFirst
def TransactionField.VoteLast : TransactionField := .scalarField .VoteLast
def TransactionField.VoteKeyDilution : TransactionField := .scalarField .VoteKeyDilution
def TransactionField.Type : TransactionField := .scalarField .Type
def TransactionField.TypeEnum : TransactionField := .scalarField .TypeEnum
def TransactionField.XferAsset : TransactionField := .scalarField .XferAsset
def TransactionField.AssetAmount : TransactionField := .scalarField .AssetAmount
def TransactionField.AssetSender : TransactionField := .scalarField .AssetSender
def TransactionField.AssetReceiver : TransactionField := .scalarField .AssetReceiver
def TransactionField.AssetCloseTo : TransactionField := .scalarField .AssetCloseTo
def TransactionField.GroupIndex : TransactionField := .scalarField .GroupIndex
def TransactionField.TxID : TransactionField := .scalarField .TxID
def TransactionField.ApplicationID : TransactionField := .scalarField .ApplicationID
def TransactionField.OnCompletion : TransactionField := .scalarField .OnCompletion
def TransactionField.NumAppArgs : TransactionField := .scalarField .NumAppArgs
def TransactionField.NumAccounts : TransactionField := .scalarField .NumAccounts
def TransactionField.NumApplications : TransactionField := .scalarField .NumApplications
def TransactionField.NumAssets : TransactionField := .scalarField .NumAssets
def TransactionField.ApprovalProgram : TransactionField := .scalarField .ApprovalProgram
def TransactionField.ClearStateProgram : TransactionField := .scalarField .ClearStateProgram
def TransactionField.RekeyTo : TransactionField := .scalarField .RekeyTo
def TransactionField.ConfigAsset : TransactionField := .scalarField .ConfigAsset
def TransactionField.ConfigAssetTotal : TransactionField := .scalarField .ConfigAssetTotal
def TransactionField.ConfigAssetDecimals : TransactionField := .scalarField .ConfigAssetDecimals
def TransactionField.ConfigAssetDefaultFrozen : TransactionField := .scalarField .ConfigAssetDefaultFrozen
def TransactionField.ConfigAssetUnitName : TransactionField := .scalarField .ConfigAssetUnitName
def TransactionField.ConfigAssetName : TransactionField := .scalarField .ConfigAssetName
def TransactionField.ConfigAssetURL : TransactionField := .scalarField .ConfigAssetURL
def TransactionField.ConfigAssetMetadataHash : TransactionField := .scalarField .ConfigAssetMetadataHash
def TransactionField.ConfigAssetManager : TransactionField := .scalarField .ConfigAssetManager
def TransactionField.ConfigAssetReserve : TransactionField := .scalarField .ConfigAssetReserve
def TransactionField.ConfigAssetFreeze : TransactionField := .scalarField .ConfigAssetFreeze
def TransactionField.ConfigAssetClawback : TransactionField := .scalarField .ConfigAssetClawback
def TransactionField.FreezeAsset : TransactionField := .scalarField .FreezeAsset
def TransactionField.FreezeAssetAccount : TransactionField := .scalarField .FreezeAssetAccount
def TransactionField.FreezeAssetFrozen : TransactionField := .scalarField .FreezeAssetFrozen
def TransactionField.GlobalNumUint : TransactionField := .scalarField .GlobalNumUint
def TransactionField.GlobalNumByteSlice : TransactionField := .scalarField .GlobalNumByteSlice
def TransactionField.LocalNumUint : TransactionField := .scalarField .LocalNumUint
def TransactionField.LocalNumByteSlice : TransactionField := .scalarField .LocalNumByteSlice
def TransactionField.ExtraProgramPages : TransactionField := .scalarField .ExtraProgramPages
def TransactionField.Nonparticipation : TransactionField := .scalarField .Nonparticipation
def TransactionField.NumLogs : TransactionField := .scalarField .NumLogs
def TransactionField.CreatedAssetID : TransactionField := .scalarField .CreatedAssetID
def TransactionField.CreatedApplicationID : TransactionField := .scalarField .CreatedApplicationID
def TransactionField.LastLog : TransactionField := .scalarField .LastLog
def TransactionField.StateProofPK : TransactionField := .scalarField .StateProofPK

/-- Embedding of the `TX_FIELD_TXT_TO_OBJECT` dictionary literal
(parse_transaction_field.py, lines 22-82) as an association list from
the textual name of a nullary transaction field to the field. -/
def TX_FIELD_TABLE : List (String × TransactionField) :=
  [("Sender", .Sender), ("Fee", .Fee), ("FirstValid", .FirstValid),
   ("FirstValidTime", .FirstValidTime), ("LastValid", .LastValid),
   ("Note", .Note), ("Lease", .Lease), ("Receiver", .Receiver),
   ("Amount", .Amount), ("CloseRemainderTo", .CloseRemainderTo),
   ("VotePK", .VotePK), ("SelectionPK", .SelectionPK),
   ("VoteFirst", .VoteFirst), ("VoteLast", .VoteLast),
   ("VoteKeyDilution", .VoteKeyDilution), ("Type", .Type),
   ("TypeEnum", .TypeEnum), ("XferAsset", .XferAsset),
   ("AssetAmount", .AssetAmount), ("AssetSender", .AssetSender),
   ("AssetReceiver", .AssetReceiver), ("AssetCloseTo", .AssetCloseTo),
   ("GroupIndex", .GroupIndex), ("TxID", .TxID),
   ("ApplicationID", .ApplicationID), ("OnCompletion", .OnCompletion),
   ("NumAppArgs", .NumAppArgs), ("NumAccounts", .NumAccounts),
   ("NumApplications", .NumApplications), ("NumAssets", .NumAssets),
   ("ApprovalProgram", .ApprovalProgram),
   ("ClearStateProgram", .ClearStateProgram), ("RekeyTo", .RekeyTo),
   ("ConfigAsset", .ConfigAsset), ("ConfigAssetTotal", .ConfigAssetTotal),
   ("ConfigAssetDecimals", .ConfigAssetDecimals),
   ("ConfigAssetDefaultFrozen", .ConfigAssetDefaultFrozen),
   ("ConfigAssetUnitName", .ConfigAssetUnitName),
   ("ConfigAssetName", .ConfigAssetName),
   ("ConfigAssetURL", .ConfigAssetURL),
   ("ConfigAssetMetadataHash", .ConfigAssetMetadataHash),
   ("ConfigAssetManager", .ConfigAssetManager),
   ("ConfigAssetReserve", .ConfigAssetReserve),
   ("ConfigAssetFreeze", .ConfigAssetFreeze),
   ("ConfigAssetClawback", .ConfigAssetClawback),
   ("FreezeAsset", .FreezeAsset),
   ("FreezeAssetAccount", .FreezeAssetAccount),
   ("FreezeAssetFrozen", .FreezeAssetFrozen),
   ("GlobalNumUint", .GlobalNumUint),
   ("GlobalNumByteSlice", .GlobalNumByteSlice),
   ("LocalNumUint", .LocalNumUint),
   ("LocalNumByteSlice", .LocalNumByteSlice),
   ("ExtraProgramPages", .ExtraProgramPages),
   ("Nonparticipation", .Nonparticipation), ("NumLogs", .NumLogs),
   ("CreatedAssetID", .CreatedAssetID),
   ("CreatedApplicationID", .CreatedApplicationID),
   ("LastLog", .LastLog), ("StateProofPK", .StateProofPK)]

/-- Lookup in the `TX_FIELD_TXT_TO_OBJECT` dictionary; `none` models a
`KeyError`. -/
def TX_FIELD_TXT_TO_OBJECT (s : String) : Option TransactionField :=
  (TX_FIELD_TABLE.find? (fun p => p.1 = s)).map Prod.snd

/-- Embedding of `parse_transaction_field` (parse_transaction_field.py,
lines 107-138).  The five array-field names are recognized by prefix; the
index is the sentinel `-1` when `use_stack` holds, otherwise the integer
parsed from the characters after `"<name> "`.  Every other token is looked
up in the fixed table after removing internal spaces; a failed lookup or a
failed integer parse (`KeyError` / `ValueError`) is `none`. -/
def parse_transaction_field (tx_field : List Char) (use_stack : Bool) :
    Option TransactionField :=
  if pyStartswith "Accounts".data tx_field then
    if use_stack then some (.Accounts (-1))
    else (_parse_int (tx_field.drop "Accounts ".length)).map
      (fun v => .Accounts (v : Int))
  else if pyStartswith "ApplicationArgs".data tx_field then
    if use_stack then some (.ApplicationArgs (-1))
    else (_parse_int (tx_field.drop "ApplicationArgs ".length)).map
      (fun v => .ApplicationArgs (v : Int))
  else if pyStartswith "Applications".data tx_field then
    if use_stack then some (.Applications (-1))
    else (_parse_int (tx_field.drop "Applications ".length)).map
      (fun v => .Applications (v : Int))
  else if pyStartswith "Assets".data tx_field then
    if use_stack then some (.Assets (-1))
    else (_parse_int (tx_field.drop "Assets ".length)).map
      (fun v => .Assets (v : Int))
  else if pyStartswith "Logs".data tx_field then
    if use_stack then some (.Logs (-1))
    else (_parse_int (tx_field.drop "Logs ".length)).map
      (fun v => .Logs (v : Int))
  else
    TX_FIELD_TXT_TO_OBJECT (String.mk (pyRemoveSpaces tx_field))

/-! ## JSON output shape (tealer/__main__.py, `handle_output`) -/

/-- The serialized object built by `handle_output` when `--json` is given
(tealer/__main__.py, lines 298-305); `result` entries are kept abstract. -/
structure JsonOutput (α : Type) where
  success : Bool
  error : Option String
  result : List α
  deriving Repr, DecidableEq

/-- Embedding of the dictionary literal in `handle_output`
(tealer/__main__.py, lines 301-305): the Python expression for `success`
is `error is not None`. -/
def json_output (error : Option String) (json_results : List α) :
    JsonOutput α :=
  { success := error.isSome
    error := error
    result := json_results }

/-! ## Theorems for C1 and C7 -/

/-- C1 (code bug evaluation): the serialized object produced by
`handle_output` for a run that raised no error has `success = false` while
`error` is null, and a run that failed has `success = true`: the Python
expression `error is not None` inverts the intended meaning of `success`.
The three fields `success`, `error`, `result` are exactly the fields of
`JsonOutput`. -/
theorem c1_json_success_is_inverted :
    (json_output none ([] : List Nat)).success = false ∧
    (json_output none ([] : List Nat)).error = none ∧
    (json_output (some "Error: e is not a detector") ([] : List Nat)).success = true := by
  refine ⟨rfl, rfl, rfl⟩

/-- C7: `_parse_int` evaluates `0x1A` to 26, `017` to 15, `0` to 0 and
`42` to 42 (the bare string `0` denotes the same value as decimal zero),
and dispatches on the prefix: `0x` means base 16 applied to the rest of
the string, any other leading `0` means base 8, anything else decimal. -/
theorem c7_parse_int_bases :
    _parse_int "0x1A".data = some 26 ∧
    _parse_int "017".data = some 15 ∧
    (_parse_int "0".data = some 0 ∧ int_of_base 10 "0".data = some 0) ∧
    _parse_int "42".data = some 42 ∧
    (∀ x : List Char, pyStartswith "0x".data x = true →
      _parse_int x = int_of_base 16 (x.drop 2)) ∧
    (∀ x : List Char, pyStartswith "0x".data x = false →
      pyStartswith "0".data x = true → _parse_int x = int_of_base 8 x) ∧
    (∀ x : List Char, pyStartswith "0x".data x = false →
      pyStartswith "0".data x = false → _parse_int x = int_of_base 10 x) := by
  refine ⟨by decide, by decide, ⟨by decide, by decide⟩, by decide, ?_, ?_, ?_⟩
  · intro x h
    simp [_parse_int, h]
  · intro x h h0
    simp [_parse_int, h, h0]
  · intro x h h0
    simp [_parse_int, h, h0]

/-- Witness for C7: the general branch facts applied at concrete inputs. -/
theorem c7_parse_int_bases_witness :
    _parse_int "0x2F".data = int_of_base 16 ("0x2F".data.drop 2) ∧
    _parse_int "0755".data = int_of_base 8 "0755".data ∧
    _parse_int "123".data = int_of_base 10 "123".data := by
  refine ⟨?_, ?_, ?_⟩
  · exact c7_parse_int_bases.2.2.2.2.1 "0x2F".data (by decide)
  · exact c7_parse_int_bases.2.2.2.2.2.1 "0755".data (by decide) (by decide)
  · exact c7_parse_int_bases.2.2.2.2.2.2 "123".data (by decide) (by decide)

/-! ## Theorem for C8 -/

/-- C8: `parse_transaction_field` maps each of the five array-field names
to the corresponding indexed variant — the index being the sentinel `-1`
exactly when `use_stack` holds and otherwise the integer parsed from the
characters after the name —, maps every other token (internal spaces
removed) through the fixed table, and fails on unknown tokens.  The
hypotheses of each general conjunct mirror the prefix dispatch of the
source. -/
theorem c8_parse_transaction_field_spec :
    (∀ t : List Char, pyStartswith "Accounts".data t = true →
      parse_transaction_field t true = some (.Accounts (-1))) ∧
    (∀ t : List Char, ∀ v : Nat, pyStartswith "Accounts".data t = true →
      _parse_int (t.drop "Accounts ".length) = some v →
      parse_transaction_field t false = some (.Accounts (v : Int))) ∧
    (∀ t : List Char, pyStartswith "Accounts".data t = false →
      pyStartswith "ApplicationArgs".data t = true →
      parse_transaction_field t true = some (.ApplicationArgs (-1))) ∧
    (∀ t : List Char, ∀ v : Nat, pyStartswith "Accounts".data t = false →
      pyStartswith "ApplicationArgs".data t = true →
      _parse_int (t.drop "ApplicationArgs ".length) = some v →
      parse_transaction_field t false = some (.ApplicationArgs (v : Int))) ∧
    (∀ t : List Char, pyStartswith "Accounts".data t = false →
      pyStartswith "ApplicationArgs".data t = false →
      pyStartswith "Applications".data t = true →
      parse_transaction_field t true = some (.Applications (-1))) ∧
    (∀ t : List Char, ∀ v : Nat, pyStartswith "Accounts".data t = false →
      pyStartswith "ApplicationArgs".data t = false →
      pyStartswith "Applications".data t = true →
      _parse_int (t.drop "Applications ".length) = some v →
      parse_transaction_field t false = some (.Applications (v : Int))) ∧
    (∀ t : List Char, pyStartswith "Accounts".data t = false →
      pyStartswith "ApplicationArgs".data t = false →
      pyStartswith "Applications".data t = false →
      pyStartswith "Assets".data t = true →
      parse_transaction_field t true = some (.Assets (-1))) ∧
    (∀ t : List Char, ∀ v : Nat, pyStartswith "Accounts".data t = false →
      pyStartswith "ApplicationArgs".data t = false →
      pyStartswith "Applications".data t = false →
      pyStartswith "Assets".data t = true →
      _parse_int (t.drop "Assets ".length) = some v →
      parse_transaction_field t false = some (.Assets (v : Int))) ∧
    (∀ t : List Char, pyStartswith "Accounts".data t = false →
      pyStartswith "ApplicationArgs".data t = false →
      pyStartswith "Applications".data t = false →
      pyStartswith "Assets".data t = false →
      pyStartswith "Logs".data t = true →
      parse_transaction_field t true = some (.Logs (-1))) ∧
    (∀ t : List Char, ∀ v : Nat, pyStartswith "Accounts".data t = false →
      pyStartswith "ApplicationArgs".data t = false →
      pyStartswith "Applications".data t = false →
      pyStartswith "Assets".data t = false →
      pyStartswith "Logs".data t = true →
      _parse_int (t.drop "Logs ".length) = some v →
      parse_transaction_field t false = some (.Logs (v : Int))) ∧
    (∀ t : List Char, ∀ us : Bool, pyStartswith "Accounts".data t = false →
      pyStartswith "ApplicationArgs".data t = false →
      pyStartswith "Applications".data t = false →
      pyStartswith "Assets".data t = false →
      pyStartswith "Logs".data t = false →
      parse_transaction_field t us =
        TX_FIELD_TXT_TO_OBJECT (String.mk (pyRemoveSpaces t))) ∧
    parse_transaction_field "Accounts 2".data false = some (.Accounts 2) ∧
    parse_transaction_field "Accounts".data true = some (.Accounts (-1)) ∧
    parse_transaction_field "ApplicationArgs 0".data false =
      some (.ApplicationArgs 0) ∧
    parse_transaction_field "Sender".data false = some .Sender ∧
    parse_transaction_field "Vote PK".data false = some .VotePK ∧
    parse_transaction_field "NotAKnownField".data false = none := by
  refine ⟨?_, ?_, ?_, ?_, ?_, ?_, ?_, ?_, ?_, ?_, ?_,
    by decide, by decide, by decide, by decide, by decide, by decide⟩
  · intro t h; simp [parse_transaction_field, h]
  · intro t v h hv; simp [parse_transaction_field, h, hv]
  · intro t h1 h2; simp [parse_transaction_field, h1, h2]
  · intro t v h1 h2 hv; simp [parse_transaction_field, h1, h2, hv]
  · intro t h1 h2 h3; simp [parse_transaction_field, h1, h2, h3]
  · intro t v h1 h2 h3 hv; simp [parse_transaction_field, h1, h2, h3, hv]
  · intro t h1 h2 h3 h4; simp [parse_transaction_field, h1, h2, h3, h4]
  · intro t v h1 h2 h3 h4 hv; simp [parse_transaction_field, h1, h2, h3, h4, hv]
  · intro t h1 h2 h3 h4 h5; simp [parse_transaction_field, h1, h2, h3, h4, h5]
  · intro t v h1 h2 h3 h4 h5 hv
    simp [parse_transaction_field, h1, h2, h3, h4, h5, hv]
  · intro t us h1 h2 h3 h4 h5
    simp [parse_transaction_field, h1, h2, h3, h4, h5]

/-- Witness for C8: the general conjuncts applied at concrete tokens. -/
theorem c8_parse_transaction_field_spec_witness :
    parse_transaction_field "Assets 7".data false = some (.Assets 7) ∧
    parse_transaction_field "Logs".data true = some (.Logs (-1)) ∧
    parse_transaction_field "Fee".data false =
      TX_FIELD_TXT_TO_OBJECT (String.mk (pyRemoveSpaces "Fee".data)) := by
  refine ⟨?_, ?_, ?_⟩
  · exact c8_parse_transaction_field_spec.2.2.2.2.2.2.2.1 "Assets 7".data 7
      (by decide) (by decide) (by decide) (by decide) (by decide)
  · exact c8_parse_transaction_field_spec.2.2.2.2.2.2.2.2.1 "Logs".data
      (by decide) (by decide) (by decide) (by decide) (by decide)
  · exact c8_parse_transaction_field_spec.2.2.2.2.2.2.2.2.2.2.1 "Fee".data false
      (by decide) (by decide) (by decide) (by decide) (by decide)

/-! ## Instruction data model (tealer/teal/instructions/instructions.py is
not under verification sources; the record below carries exactly the
attributes `parse_teal.py` reads from an instruction object). -/

/-- Contract type enumeration (`ContractType` in instructions.py, used
throughout parse_teal.py). -/
inductive ContractType where
  | STATEFULL
  | STATELESS
  | ANY
  deriving DecidableEq, Repr

/-- Families of field objects an instruction's `field` attribute may
belong to.  `_verify_version` version-checks a field only when it is an
instance of one of the first five families (the `isinstance` tuple at
parse_teal.py lines 396-405); e.g. global fields are not checked. -/
inductive FieldFamilyK where
  | transactionFam
  | assetHoldingFam
  | assetParamsFam
  | appParamsFam
  | acctParamsFam
  | globalFam
  deriving DecidableEq, Repr

/-- The attributes of a field object that `_verify_version` reads: its
family, its textual name, and the Teal version introducing it. -/
structure InsFieldInfo where
  famK : FieldFamilyK
  fname : String
  fversion : Nat
  deriving DecidableEq, Repr

/-- The `isinstance(field, (TransactionField, AssetHoldingField,
AssetParamsField, AppParamsField, AcctParamsField))` test of
`_verify_version` (parse_teal.py lines 396-405). -/
def field_isinstance_versioned (f : InsFieldInfo) : Bool :=
  match f.famK with
  | .transactionFam => true
  | .assetHoldingFam => true
  | .assetParamsFam => true
  | .appParamsFam => true
  | .acctParamsFam => true
  | .globalFam => false

/-- Instruction variants, one case per instruction class that
`parse_teal.py` dispatches on; every other opcode is `other`. -/
inductive InsKind where
  | label (name : String)
  | b (target : String)
  | bz (target : String)
  | bnz (target : String)
  | switch (targets : List String)
  | matchIns (targets : List String)
  | errIns
  | returnIns
  | callsub (target : String)
  | retsub
  | pragma (version : Nat)
  | intcblock (constants : List Nat)
  | bytecblock (constants : List String)
  | txn (field : TransactionField)
  | method (signature : String)
  | other (name : String)
  deriving DecidableEq, Repr

/-- A parsed instruction: the variant plus the common attributes
(`line`, `version`, `mode`, the optional `field` metadata, and the two
comment lists) that parse_teal.py reads or writes. -/
structure ParsedIns where
  kind : InsKind
  line : Nat := 0
  version : Nat := 1
  mode : ContractType := .ANY
  field : Option InsFieldInfo := none
  comments_before_ins : List String := []
  tealer_comments : List String := []
  deriving DecidableEq, Repr

/-- Embedding of `_detect_contract_type` (parse_teal.py lines 73-98): the
mode of the first instruction whose mode is not `ANY`, else `ANY`. -/
def _detect_contract_type : List ParsedIns → ContractType
  | [] => .ANY
  | ins :: rest =>
    if ins.mode ≠ ContractType.ANY then ins.mode
    else _detect_contract_type rest

/-! ## `_verify_version` (parse_teal.py lines 363-431) -/

/-- Diagnostics printed by `_verify_version`; each diagnostic is keyed by
the data interpolated into the printed message: the instruction line and
the versions involved, or the line lists of the mode-conflict report. -/
inductive VDiag where
  | insVersion (line : Nat) (insVersion programVersion : Nat)
  | fieldVersion (line : Nat) (fieldVersion programVersion : Nat)
  | modeConflict (statelessLines statefulLines : List Nat)
  deriving DecidableEq, Repr

/-- Diagnostics printed by one iteration of the `_verify_version` loop
(parse_teal.py lines 386-412): the instruction-version message when the
program version is below the instruction's version, otherwise — and only
otherwise — the field-version message when the instruction carries a
version-checked field whose version exceeds the program version. -/
def ins_diags (pv : Nat) (ins : ParsedIns) : List VDiag :=
  if pv < ins.version then [.insVersion ins.line ins.version pv]
  else
    match ins.field with
    | some f =>
      if field_isinstance_versioned f then
        if pv < f.fversion then [.fieldVersion ins.line f.fversion pv] else []
      else []
    | none => []

/-- One iteration of the `_verify_version` loop: emit the diagnostics of
`ins_diags` (setting the error flag when any was emitted, as both `print`
branches do) and accumulate the instruction on the stateful or stateless
list according to its mode. -/
def vstep (pv : Nat) (acc : List VDiag × List ParsedIns × List ParsedIns × Bool)
    (ins : ParsedIns) : List VDiag × List ParsedIns × List ParsedIns × Bool :=
  (acc.1 ++ ins_diags pv ins,
   (if ins.mode = ContractType.STATEFULL then acc.2.1 ++ [ins] else acc.2.1),
   (if ins.mode = ContractType.STATELESS then acc.2.2.1 ++ [ins] else acc.2.2.1),
   acc.2.2.2 || !(ins_diags pv ins).isEmpty)

/-- The epilogue of `_verify_version` (parse_teal.py lines 418-431): given
the loop's final accumulator, append the mode-conflict report when both a
stateless-only and a stateful-only instruction were seen. -/
def verify_finish (r : List VDiag × List ParsedIns × List ParsedIns × Bool) :
    List VDiag × Bool :=
  if r.2.2.1 ≠ [] ∧ r.2.1 ≠ [] then
    (r.1 ++ [.modeConflict (r.2.2.1.map ParsedIns.line) (r.2.1.map ParsedIns.line)],
     true)
  else (r.1, r.2.2.2)

/-- Embedding of `_verify_version` (parse_teal.py lines 363-431): run the
loop over the instructions, then the epilogue.  Returns the printed
diagnostics and the error flag the Python function returns. -/
def _verify_version (ins_list : List ParsedIns) (program_version : Nat) :
    List VDiag × Bool :=
  verify_finish (ins_list.foldl (vstep program_version) ([], [], [], false))

/-- The loop of `_verify_version` appends, instruction by instruction, the
diagnostics of `ins_diags`, and filters the instructions by mode. -/
theorem verify_fold_spec (pv : Nat) : ∀ (l : List ParsedIns)
    (d0 : List VDiag) (sf0 sl0 : List ParsedIns) (e0 : Bool),
    List.foldl (vstep pv) (d0, sf0, sl0, e0) l =
      (d0 ++ (l.map (ins_diags pv)).flatten,
       sf0 ++ l.filter (fun i => i.mode = ContractType.STATEFULL),
       sl0 ++ l.filter (fun i => i.mode = ContractType.STATELESS),
       e0 || l.any (fun i => !(ins_diags pv i).isEmpty)) := by
  intro l
  induction l with
  | nil => intro d0 sf0 sl0 e0; simp
  | cons x xs ih =>
    intro d0 sf0 sl0 e0
    rw [List.foldl_cons, vstep, ih]
    simp [List.filter_cons, Bool.or_assoc]
    constructor
    · by_cases hx : x.mode = ContractType.STATEFULL <;> simp [hx]
    · by_cases hx : x.mode = ContractType.STATELESS <;> simp [hx]

/-- A field-version diagnostic is in the output of `_verify_version` iff
it is emitted by some iteration of its loop (the trailing mode-conflict
report never has that shape). -/
theorem field_diag_mem_verify (l : List ParsedIns) (pv ln fv pv2 : Nat) :
    VDiag.fieldVersion ln fv pv2 ∈ (_verify_version l pv).1 ↔
      VDiag.fieldVersion ln fv pv2 ∈ (l.map (ins_diags pv)).flatten := by
  unfold _verify_version verify_finish
  rw [verify_fold_spec]
  split <;> simp

/-- C2 counterexample: an instruction on line 3 whose own minimum version
is 2 and whose transaction field requires version 3. -/
def c2_ins : ParsedIns :=
  { kind := .other "x"
    line := 3
    version := 2
    mode := .ANY
    field := some { famK := .transactionFam, fname := "F", fversion := 3 } }

/-- C2 is false as stated: against program version 1, `c2_ins` carries a
field whose minimum version (3) exceeds the program version, but because
the instruction's own minimum version (2) is also unsupported —
`_verify_version` checks the field only in the `else` branch of the
instruction-version check — the output contains only the
instruction-version diagnostic and no field diagnostic. -/
theorem c2_no_field_diag_when_ins_version_fails :
    c2_ins.field.all (fun f => 1 < f.fversion) = true ∧
    1 < c2_ins.version ∧
    (_verify_version [c2_ins] 1).1 = [VDiag.insVersion 3 2 1] ∧
    VDiag.fieldVersion 3 3 1 ∉ (_verify_version [c2_ins] 1).1 := by
  refine ⟨by decide, by decide, by decide, by decide⟩

/-- C2 (amended): during version validation, a field-version diagnostic is
emitted for an instruction's field exactly when the instruction's own
minimum version is supported by the program version and the field's
minimum version exceeds it; when the instruction's own version check
already fails, only the instruction diagnostic is emitted. -/
theorem c2_field_version_diagnostics (l : List ParsedIns) (pv : Nat) :
    (∀ i ∈ l, ∀ f : InsFieldInfo, i.field = some f →
      field_isinstance_versioned f = true → i.version ≤ pv → pv < f.fversion →
      VDiag.fieldVersion i.line f.fversion pv ∈ (_verify_version l pv).1) ∧
    (∀ ln fv pv2 : Nat, VDiag.fieldVersion ln fv pv2 ∈ (_verify_version l pv).1 →
      ∃ i ∈ l, ∃ f : InsFieldInfo, i.field = some f ∧
        field_isinstance_versioned f = true ∧ i.version ≤ pv ∧ pv < f.fversion ∧
        ln = i.line ∧ fv = f.fversion ∧ pv2 = pv) := by
  constructor
  · intro i hi f hf hfam hle hlt
    rw [field_diag_mem_verify]
    rw [List.mem_flatten]
    refine ⟨ins_diags pv i, List.mem_map_of_mem _ hi, ?_⟩
    simp [ins_diags, Nat.not_lt.mpr hle, hf, hfam, hlt]
  · intro ln fv pv2 hmem
    rw [field_diag_mem_verify, List.mem_flatten] at hmem
    obtain ⟨ds, hds, hdm⟩ := hmem
    rw [List.mem_map] at hds
    obtain ⟨i, hi, rfl⟩ := hds
    by_cases h1 : pv < i.version
    · simp [ins_diags, h1] at hdm
    · rcases hfield : i.field with _ | f
      · simp [ins_diags, h1, hfield] at hdm
      · by_cases h2 : field_isinstance_versioned f = true
        · by_cases h3 : pv < f.fversion
          · simp [ins_diags, h1, hfield, h2, h3] at hdm
            exact ⟨i, hi, f, hfield, h2, Nat.not_lt.mp h1, h3,
              hdm.1, hdm.2.1, hdm.2.2⟩
          · simp [ins_diags, h1, hfield, h2, h3] at hdm
        · simp [ins_diags, h1, hfield, h2] at hdm

/-- Witness instruction for the amended C2: line 5, own version 1,
transaction field requiring version 4, checked against program version 2. -/
def c2_wins : ParsedIns :=
  { kind := .other "gaid"
    line := 5
    version := 1
    field := some { famK := .transactionFam, fname := "G", fversion := 4 } }

/-- Witness for the amended C2: the forward direction at `c2_wins`. -/
theorem c2_field_version_diagnostics_witness :
    VDiag.fieldVersion 5 4 2 ∈ (_verify_version [c2_wins] 2).1 := by
  have h := (c2_field_version_diagnostics [c2_wins] 2).1 c2_wins (by decide)
    { famK := .transactionFam, fname := "G", fversion := 4 } rfl
    (by decide) (by decide) (by decide)
  exact h

/-! ## First pass (parse_teal.py lines 178-263)

Instruction objects are identified by their position in the growing
`instructions` list; the mutable `next`/`prev` lists of the instruction
objects are modelled by two edge lists of index pairs (`nextE` holds
`(holder, successor)` pairs written by `add_next`, `prevE` holds
`(holder, predecessor)` pairs written by `add_prev`); the `labels` and
`subroutines` dictionaries are functions with pointwise update, plus the
key-insertion order of the `subroutines` defaultdict (`subNames`), which
`parse_teal` later iterates over.  The external single-line parser
`parse_line` (parse_instruction.py, not among the verification sources)
is an abstract parameter: it yields `none` for a blank line, an
instruction, or a `ParseError` message. -/

/-- The instruction kinds after which `_first_pass` nulls its `prev`
cursor (parse_teal.py line 254): unconditional jump `B` and unconditional
exits `Err`, `Return`, `Retsub`.  `Callsub` is deliberately absent. -/
def isUncond : InsKind → Bool
  | .b _ => true
  | .errIns => true
  | .returnIns => true
  | .retsub => true
  | _ => false

/-- Embedding of `_add_instruction_comments` (parse_teal.py lines
168-175), parametric in the method-selector function (`get_method_selector`
lives in `utils/arc4_abi.py`, outside the verification sources).  The
source line `method_signature.strip('"')` discards its result, so the
selector is computed on the unstripped signature. -/
def add_instruction_comments (sel : String → String) (ins : ParsedIns) :
    ParsedIns :=
  match ins.kind with
  | .txn f =>
    if f = TransactionField.ApplicationID then
      { ins with tealer_comments :=
          ins.tealer_comments ++ ["ApplicationID is 0 in Creation Txn"] }
    else ins
  | .method sig =>
    { ins with tealer_comments :=
        ins.tealer_comments ++ ["method-selector: " ++ sel sig] }
  | _ => ins

/-- The loop state of `_first_pass`: the 0-based line counter `idx`, the
`prev` cursor, the `intcblock`/`bytecblock` instruction lists, the
buffered comment lines, the label dictionary, the subroutine dictionary
with its key order, the parsed instructions, and the instruction-level
edge lists. -/
structure FPState where
  idx : Nat
  prev : Option Nat
  intcblock_ins : List Nat
  bytecblock_ins : List Nat
  instruction_comments : List String
  labels : String → Option Nat
  subroutines : String → List Nat
  subNames : List String
  instructions : List ParsedIns
  nextE : List (Nat × Nat)
  prevE : List (Nat × Nat)

/-- The state `_first_pass` starts from. -/
def initFPState : FPState :=
  { idx := 0
    prev := none
    intcblock_ins := []
    bytecblock_ins := []
    instruction_comments := []
    labels := fun _ => none
    subroutines := fun _ => []
    subNames := []
    instructions := []
    nextE := []
    prevE := [] }

/-- One iteration of the `_first_pass` loop (parse_teal.py lines 212-262):
buffer a comment line; record a parse error with the 0-based line index;
skip a blank line; otherwise attach buffered comments, number the line,
collect `intcblock`/`bytecblock`, record a label, link the instruction to
the `prev` cursor, advance or null the cursor, record a `callsub`, and
append the instruction. -/
def process_line (sel : String → String)
    (parseLine : List Char → Except String (Option ParsedIns))
    (line : List Char) (s : FPState) : Except (Nat × String) FPState :=
  if pyStartswith "//".data (pyStrip line) then
    .ok { s with
      idx := s.idx + 1
      instruction_comments := s.instruction_comments ++ [String.mk line] }
  else
    match parseLine line with
    | .error e => .error (s.idx, e)
    | .ok none => .ok { s with idx := s.idx + 1 }
    | .ok (some ins0) =>
      let ins1 := if s.instruction_comments ≠ [] then
          { ins0 with comments_before_ins := s.instruction_comments }
        else ins0
      let ins2 := add_instruction_comments sel { ins1 with line := s.idx + 1 }
      let i := s.instructions.length
      .ok { idx := s.idx + 1
            prev := if isUncond ins2.kind then none else some i
            intcblock_ins := match ins2.kind with
              | .intcblock _ => s.intcblock_ins ++ [i]
              | _ => s.intcblock_ins
            bytecblock_ins := match ins2.kind with
              | .bytecblock _ => s.bytecblock_ins ++ [i]
              | _ => s.bytecblock_ins
            instruction_comments :=
              if s.instruction_comments ≠ [] then [] else s.instruction_comments
            labels := match ins2.kind with
              | .label name => Function.update s.labels name (some i)
              | _ => s.labels
            subroutines := match ins2.kind with
              | .callsub lbl =>
                Function.update s.subroutines lbl (s.subroutines lbl ++ [i])
              | _ => s.subroutines
            subNames := match ins2.kind with
              | .callsub lbl =>
                if lbl ∈ s.subNames then s.subNames else s.subNames ++ [lbl]
              | _ => s.subNames
            instructions := s.instructions ++ [ins2]
            nextE := match s.prev with
              | some j => s.nextE ++ [(j, i)]
              | none => s.nextE
            prevE := match s.prev with
              | some j => s.prevE ++ [(i, j)]
              | none => s.prevE }

/-- The `_first_pass` loop over the remaining source lines. -/
def _first_pass_aux (sel : String → String)
    (parseLine : List Char → Except String (Option ParsedIns)) :
    List (List Char) → FPState → Except (Nat × String) FPState
  | [], s => .ok s
  | line :: rest, s =>
    match process_line sel parseLine line s with
    | .error e => .error e
    | .ok s' => _first_pass_aux sel parseLine rest s'

/-- Embedding of `_first_pass` (parse_teal.py lines 178-263).  A parse
error aborts the whole pass (the Python code prints and `sys.exit(1)`s),
carrying the 0-based index of the offending line and the message. -/
def _first_pass (sel : String → String)
    (parseLine : List Char → Except String (Option ParsedIns))
    (lines : List (List Char)) : Except (Nat × String) FPState :=
  _first_pass_aux sel parseLine lines initFPState

/-- The instruction list produced by `_first_pass` (empty on error). -/
def first_pass_instructions (sel : String → String)
    (parseLine : List Char → Except String (Option ParsedIns))
    (lines : List (List Char)) : List ParsedIns :=
  match _first_pass sel parseLine lines with
  | .ok s => s.instructions
  | .error _ => []

/-- The `add_next` edge list produced by `_first_pass` (empty on error). -/
def first_pass_nextE (sel : String → String)
    (parseLine : List Char → Except String (Option ParsedIns))
    (lines : List (List Char)) : List (Nat × Nat) :=
  match _first_pass sel parseLine lines with
  | .ok s => s.nextE
  | .error _ => []

/-- The `add_prev` edge list produced by `_first_pass` (empty on error). -/
def first_pass_prevE (sel : String → String)
    (parseLine : List Char → Except String (Option ParsedIns))
    (lines : List (List Char)) : List (Nat × Nat) :=
  match _first_pass sel parseLine lines with
  | .ok s => s.prevE
  | .error _ => []

/-- The label dictionary produced by `_first_pass` (empty on error). -/
def first_pass_labels (sel : String → String)
    (parseLine : List Char → Except String (Option ParsedIns))
    (lines : List (List Char)) : String → Option Nat :=
  match _first_pass sel parseLine lines with
  | .ok s => s.labels
  | .error _ => fun _ => none

/-- The kind of the instruction stored at position `i`. -/
def kindAt (l : List ParsedIns) (i : Nat) : Option InsKind :=
  (l.get? i).map ParsedIns.kind

/-- A pair is a legitimate default edge of the instruction list: it links
consecutive positions, the successor exists, and the first instruction is
not an unconditional jump or exit. -/
def EdgeOk (l : List ParsedIns) (p : Nat × Nat) : Prop :=
  p.2 = p.1 + 1 ∧ p.2 < l.length ∧
    ∃ k, kindAt l p.1 = some k ∧ isUncond k = false

/-- Helper for `prevSpec`: the cursor value determined by the last parsed
instruction (if any) and the length of the list. -/
def prevSpecOf (o : Option ParsedIns) (n : Nat) : Option Nat :=
  match o with
  | none => none
  | some ins => if isUncond ins.kind then none else some (n - 1)

/-- The value the `prev` cursor must have after processing an instruction
list: null when no instruction was parsed yet or the last one was an
unconditional jump or exit, else the index of the last instruction. -/
def prevSpec (l : List ParsedIns) : Option Nat :=
  prevSpecOf l.getLast? l.length

/-- Invariant of the `_first_pass` loop: the two edge lists hold exactly
the legitimate default edges of the instructions parsed so far, and the
`prev` cursor agrees with `prevSpec`. -/
def EdgeInv (s : FPState) : Prop :=
  (∀ p : Nat × Nat, p ∈ s.nextE ↔ EdgeOk s.instructions p) ∧
  (∀ p : Nat × Nat, p ∈ s.prevE ↔ EdgeOk s.instructions (p.2, p.1)) ∧
  s.prev = prevSpec s.instructions

theorem kindAt_append_left (l l' : List ParsedIns) (i : Nat)
    (h : i < l.length) : kindAt (l ++ l') i = kindAt l i := by
  unfold kindAt
  rw [List.get?_append h]

theorem kindAt_concat_self (l : List ParsedIns) (x : ParsedIns) :
    kindAt (l ++ [x]) l.length = some x.kind := by
  unfold kindAt
  rw [List.get?_concat_length]
  rfl

theorem prevSpec_concat (l : List ParsedIns) (x : ParsedIns) :
    prevSpec (l ++ [x]) =
      if isUncond x.kind then none else some l.length := by
  unfold prevSpec
  rw [List.getLast?_concat]
  simp [prevSpecOf]

theorem prevSpec_eq_some {l : List ParsedIns} {j : Nat}
    (h : prevSpec l = some j) :
    j + 1 = l.length ∧ ∃ k, kindAt l j = some k ∧ isUncond k = false := by
  unfold prevSpec at h
  cases hl : l.getLast? with
  | none => rw [hl] at h; cases h
  | some ins =>
    rw [hl] at h
    simp only [prevSpecOf] at h
    by_cases hu : isUncond ins.kind = true
    · rw [if_pos hu] at h; cases h
    · rw [if_neg hu] at h
      injection h with h
      subst h
      have hne : l ≠ [] := by
        intro he
        subst he
        simp at hl
      have hlen : 0 < l.length := List.length_pos.mpr hne
      refine ⟨by omega, ins.kind, ?_, by simpa using hu⟩
      unfold kindAt
      rw [← List.getLast?_eq_get?, hl]
      rfl

theorem prevSpec_eq_none {l : List ParsedIns} (h : prevSpec l = none) :
    l = [] ∨ ∃ k, kindAt l (l.length - 1) = some k ∧ isUncond k = true := by
  unfold prevSpec at h
  cases hl : l.getLast? with
  | none =>
    left
    cases l with
    | nil => rfl
    | cons a as => simp at hl
  | some ins =>
    rw [hl] at h
    simp only [prevSpecOf] at h
    right
    by_cases hu : isUncond ins.kind = true
    · refine ⟨ins.kind, ?_, hu⟩
      unfold kindAt
      rw [← List.getLast?_eq_get?, hl]
      rfl
    · rw [if_neg hu] at h; cases h

theorem edgeOk_mono (l : List ParsedIns) (x : ParsedIns) (p : Nat × Nat)
    (h : EdgeOk l p) : EdgeOk (l ++ [x]) p := by
  obtain ⟨h1, h2, k, hk, hku⟩ := h
  refine ⟨h1, by simpa using Nat.lt_succ_of_lt h2, k, ?_, hku⟩
  rw [kindAt_append_left l [x] p.1 (by omega)]
  exact hk

theorem edgeOk_concat_cases (l : List ParsedIns) (x : ParsedIns)
    (p : Nat × Nat) (h : EdgeOk (l ++ [x]) p) :
    EdgeOk l p ∨
      (0 < l.length ∧ p.1 = l.length - 1 ∧ p.2 = l.length ∧
        ∃ k, kindAt l p.1 = some k ∧ isUncond k = false) := by
  obtain ⟨h1, h2, k, hk, hku⟩ := h
  simp only [List.length_append, List.length_singleton] at h2
  by_cases hlt : p.2 < l.length
  · left
    refine ⟨h1, hlt, k, ?_, hku⟩
    rw [kindAt_append_left l [x] p.1 (by omega)] at hk
    exact hk
  · right
    have h2' : p.2 = l.length := by omega
    have hp1 : p.1 = l.length - 1 := by omega
    have hpos : 0 < l.length := by omega
    refine ⟨hpos, hp1, h2', k, ?_, hku⟩
    rw [kindAt_append_left l [x] p.1 (by omega)] at hk
    exact hk

/-- `process_line` preserves the default-edge invariant. -/
theorem process_line_edgeInv {sel : String → String}
    {parseLine : List Char → Except String (Option ParsedIns)}
    {line : List Char} {s s' : FPState}
    (h : process_line sel parseLine line s = .ok s') (hinv : EdgeInv s) :
    EdgeInv s' := by
  unfold process_line at h
  by_cases hc : pyStartswith "//".data (pyStrip line) = true
  · rw [if_pos hc] at h
    injection h with h
    subst h
    exact hinv
  · rw [if_neg hc] at h
    cases hp : parseLine line with
    | error e => rw [hp] at h; cases h
    | ok oins =>
      rw [hp] at h
      cases oins with
      | none =>
        injection h with h
        subst h
        exact hinv
      | some ins0 =>
        injection h with h
        subst h
        simp only [EdgeInv]
        obtain ⟨hin, hip, hiprev⟩ := hinv
        cases hprev : s.prev with
        | none =>
          have hspec : prevSpec s.instructions = none := by
            rw [← hiprev, hprev]
          have hcases := prevSpec_eq_none hspec
          have hstable : ∀ p : Nat × Nat,
              EdgeOk (s.instructions ++
                [add_instruction_comments sel
                  { (if s.instruction_comments ≠ [] then
                      { ins0 with comments_before_ins := s.instruction_comments }
                    else ins0) with line := s.idx + 1 }]) p ↔
              EdgeOk s.instructions p := by
            intro p
            constructor
            · intro hE
              rcases edgeOk_concat_cases _ _ _ hE with hE | ⟨hpos, hp1, hp2, k, hk, hku⟩
              · exact hE
              · rcases hcases with hnil | ⟨k', hk', hku'⟩
                · rw [hnil] at hpos; simp at hpos
                · rw [hp1] at hk
                  rw [hk'] at hk
                  injection hk with hk
                  subst hk
                  rw [hku'] at hku
                  cases hku
            · exact edgeOk_mono _ _ _
          refine ⟨?_, ?_, ?_⟩
          · intro p
            simp only [hprev]
            rw [hin p, ← hstable p]
          · intro p
            simp only [hprev]
            rw [hip p, ← hstable (p.2, p.1)]
          · simp only [prevSpec_concat]
        | some j =>
          have hspec : prevSpec s.instructions = some j := by
            rw [← hiprev, hprev]
          obtain ⟨hj1, kj, hkj, hkju⟩ := prevSpec_eq_some hspec
          have hextend : ∀ p : Nat × Nat,
              EdgeOk (s.instructions ++
                [add_instruction_comments sel
                  { (if s.instruction_comments ≠ [] then
                      { ins0 with comments_before_ins := s.instruction_comments }
                    else ins0) with line := s.idx + 1 }]) p ↔
              (EdgeOk s.instructions p ∨ p = (j, s.instructions.length)) := by
            intro p
            constructor
            · intro hE
              rcases edgeOk_concat_cases _ _ _ hE with hE | ⟨hpos, hp1, hp2, k, hk, hku⟩
              · exact Or.inl hE
              · right
                have : p.1 = j := by omega
                rw [Prod.ext_iff]
                exact ⟨this, hp2⟩
            · intro hE
              rcases hE with hE | hE
              · exact edgeOk_mono _ _ _ hE
              · subst hE
                refine ⟨by simpa using hj1.symm, by simp, kj, ?_, hkju⟩
                rw [kindAt_append_left _ _ j (by omega)]
                exact hkj
          refine ⟨?_, ?_, ?_⟩
          · intro p
            simp only [hprev, List.mem_append, List.mem_singleton]
            rw [hin p, hextend p]
          · intro p
            simp only [hprev, List.mem_append, List.mem_singleton]
            rw [hip p, hextend (p.2, p.1)]
            constructor
            · rintro (hE | hE)
              · exact Or.inl hE
              · right
                rw [Prod.ext_iff] at hE ⊢
                exact ⟨hE.2, hE.1⟩
            · rintro (hE | hE)
              · exact Or.inl hE
              · right
                rw [Prod.ext_iff] at hE ⊢
                exact ⟨hE.2, hE.1⟩
          · simp only [prevSpec_concat]

/-- `_first_pass_aux` preserves the default-edge invariant. -/
theorem first_pass_aux_edgeInv (sel : String → String)
    (parseLine : List Char → Except String (Option ParsedIns)) :
    ∀ (lines : List (List Char)) (s s' : FPState),
    EdgeInv s → _first_pass_aux sel parseLine lines s = .ok s' →
    EdgeInv s' := by
  intro lines
  induction lines with
  | nil =>
    intro s s' hinv h
    unfold _first_pass_aux at h
    injection h with h
    subst h
    exact hinv
  | cons line rest ih =>
    intro s s' hinv h
    unfold _first_pass_aux at h
    cases hp : process_line sel parseLine line s with
    | error e => rw [hp] at h; cases h
    | ok s1 =>
      rw [hp] at h
      exact ih s1 s' (process_line_edgeInv hp hinv) h

theorem edgeInv_init : EdgeInv initFPState := by
  refine ⟨?_, ?_, rfl⟩ <;>
    intro p <;>
    simp [initFPState, EdgeOk]

/-- C3: after the first pass, a bidirectional default edge (an `add_next`
entry on the first instruction and an `add_prev` entry on the second) is
present between consecutive instructions `i` and `i+1` exactly when
instruction `i` is not an unconditional jump (`B`) or exit (`Err`,
`Return`, `Retsub`); in particular a `Callsub` instruction gets a default
edge to the instruction following it. -/
theorem c3_first_pass_default_edges (sel : String → String)
    (parseLine : List Char → Except String (Option ParsedIns))
    (lines : List (List Char)) (i : Nat)
    (h : i + 1 < (first_pass_instructions sel parseLine lines).length) :
    ((((i, i + 1) ∈ first_pass_nextE sel parseLine lines) ∧
      ((i + 1, i) ∈ first_pass_prevE sel parseLine lines)) ↔
     (∃ k, kindAt (first_pass_instructions sel parseLine lines) i = some k ∧
        isUncond k = false)) ∧
    (∀ lbl, kindAt (first_pass_instructions sel parseLine lines) i =
        some (.callsub lbl) →
      ((i, i + 1) ∈ first_pass_nextE sel parseLine lines ∧
       (i + 1, i) ∈ first_pass_prevE sel parseLine lines)) := by
  cases hfp : _first_pass sel parseLine lines with
  | error e =>
    simp only [first_pass_instructions, hfp] at h
    simp at h
  | ok s =>
    have hinv := first_pass_aux_edgeInv sel parseLine lines initFPState s
      edgeInv_init hfp
    simp only [first_pass_instructions, hfp] at h
    simp only [first_pass_instructions, first_pass_nextE, first_pass_prevE, hfp]
    obtain ⟨hn, hp, _⟩ := hinv
    constructor
    · constructor
      · rintro ⟨h1, _⟩
        exact ((hn (i, i + 1)).mp h1).2.2
      · intro hk
        exact ⟨(hn (i, i + 1)).mpr ⟨rfl, h, hk⟩, (hp (i + 1, i)).mpr ⟨rfl, h, hk⟩⟩
    · intro lbl hkl
      have hk : ∃ k, kindAt s.instructions i = some k ∧ isUncond k = false :=
        ⟨.callsub lbl, hkl, rfl⟩
      exact ⟨(hn (i, i + 1)).mpr ⟨rfl, h, hk⟩, (hp (i + 1, i)).mpr ⟨rfl, h, hk⟩⟩

/-- A toy single-line instruction parser standing in for the external
`parse_line` (parse_instruction.py is outside the verification sources);
used to evaluate the parsing pipeline on concrete programs. -/
def demo_parse (line : List Char) : Except String (Option ParsedIns) :=
  let t := pyStrip line
  if t = [] then .ok none
  else if t = "callsub s".data then .ok (some { kind := .callsub "s" })
  else if t = "retsub".data then .ok (some { kind := .retsub })
  else if t = "s:".data then .ok (some { kind := .label "s" })
  else if t = "b s".data then .ok (some { kind := .b "s" })
  else if t = "int 1".data then .ok (some { kind := .other "int" })
  else if t = "return".data then .ok (some { kind := .returnIns })
  else .error "cannot parse instruction"

/-- A stand-in for the external method-selector function. -/
def demo_sel : String → String := fun _ => "demo"

/-- Source lines of a two-instruction program whose first instruction is a
`callsub`. -/
def c3_demo_lines : List (List Char) :=
  ["callsub s".data, "int 1".data]

/-- Witness for C3: in the concrete program `callsub s; int 1`, the first
pass links the `callsub` to the following instruction in both directions. -/
theorem c3_first_pass_default_edges_witness :
    ((0, 1) ∈ first_pass_nextE demo_sel demo_parse c3_demo_lines ∧
     ((1 : Nat), (0 : Nat)) ∈ first_pass_prevE demo_sel demo_parse c3_demo_lines) :=
  (c3_first_pass_default_edges demo_sel demo_parse c3_demo_lines 0
    (by decide)).2 "s" (by decide)

/-! ## C6: the first parse error aborts parsing -/

theorem process_line_ok_idx {sel : String → String}
    {parseLine : List Char → Except String (Option ParsedIns)}
    {line : List Char} {s s' : FPState}
    (h : process_line sel parseLine line s = .ok s') : s'.idx = s.idx + 1 := by
  unfold process_line at h
  by_cases hc : pyStartswith "//".data (pyStrip line) = true
  · rw [if_pos hc] at h
    injection h with h
    subst h
    rfl
  · rw [if_neg hc] at h
    cases hp : parseLine line with
    | error e => rw [hp] at h; cases h
    | ok oins =>
      rw [hp] at h
      cases oins with
      | none => injection h with h; subst h; rfl
      | some ins0 => injection h with h; subst h; rfl

theorem process_line_ok_of_lineOk {sel : String → String}
    {parseLine : List Char → Except String (Option ParsedIns)}
    {line : List Char} (s : FPState)
    (h : pyStartswith "//".data (pyStrip line) = true ∨
      ∃ r, parseLine line = .ok r) :
    ∃ s', process_line sel parseLine line s = .ok s' := by
  unfold process_line
  by_cases hc : pyStartswith "//".data (pyStrip line) = true
  · rw [if_pos hc]
    exact ⟨_, rfl⟩
  · rw [if_neg hc]
    rcases h with h | ⟨r, hr⟩
    · exact absurd h hc
    · rw [hr]
      cases r with
      | none => exact ⟨_, rfl⟩
      | some ins0 => exact ⟨_, rfl⟩

theorem process_line_error {sel : String → String}
    {parseLine : List Char → Except String (Option ParsedIns)}
    {line : List Char} {msg : String} (s : FPState)
    (hc : pyStartswith "//".data (pyStrip line) = false)
    (hp : parseLine line = .error msg) :
    process_line sel parseLine line s = .error (s.idx, msg) := by
  unfold process_line
  rw [if_neg (by simp [hc]), hp]

theorem first_pass_aux_error (sel : String → String)
    (parseLine : List Char → Except String (Option ParsedIns)) :
    ∀ (lines : List (List Char)) (s : FPState) (k : Nat) (msg : String)
      (lk : List Char),
    (∀ m, m < k → ∀ line, lines.get? m = some line →
      pyStartswith "//".data (pyStrip line) = true ∨
        ∃ r, parseLine line = .ok r) →
    lines.get? k = some lk →
    pyStartswith "//".data (pyStrip lk) = false →
    parseLine lk = .error msg →
    _first_pass_aux sel parseLine lines s = .error (s.idx + k, msg) := by
  intro lines
  induction lines with
  | nil =>
    intro s k msg lk _ hget _ _
    simp at hget
  | cons line rest ih =>
    intro s k msg lk hok hget hnc herr
    cases k with
    | zero =>
      simp only [List.get?] at hget
      injection hget with hget
      subst hget
      unfold _first_pass_aux
      rw [process_line_error s hnc herr]
      simp
    | succ k' =>
      obtain ⟨s1, hs1⟩ := process_line_ok_of_lineOk s
        (hok 0 (Nat.succ_pos k') line rfl)
      unfold _first_pass_aux
      rw [hs1]
      show _first_pass_aux sel parseLine rest s1 = Except.error (s.idx + (k' + 1), msg)
      have hidx := process_line_ok_idx hs1
      have h2 := ih s1 k' msg lk
        (fun m hm l hl => hok (m + 1) (by omega) l hl)
        (by simpa using hget) hnc herr
      rw [h2, hidx]
      have h3 : s.idx + 1 + k' = s.idx + (k' + 1) := by omega
      rw [h3]

/-- C6: when every line before 0-based index `k` is a comment or parses,
and line `k` is not a comment and fails to parse with message `msg`, the
first pass aborts with the parse error `(k, msg)` — no instruction list is
produced, so no line after `k` is ever turned into an instruction. -/
theorem c6_first_parse_error_aborts (sel : String → String)
    (parseLine : List Char → Except String (Option ParsedIns))
    (lines : List (List Char)) (k : Nat) (msg : String) (lk : List Char)
    (hok : ∀ m, m < k → ∀ line, lines.get? m = some line →
      pyStartswith "//".data (pyStrip line) = true ∨
        ∃ r, parseLine line = .ok r)
    (hget : lines.get? k = some lk)
    (hnc : pyStartswith "//".data (pyStrip lk) = false)
    (herr : parseLine lk = .error msg) :
    _first_pass sel parseLine lines = .error (k, msg) := by
  have h := first_pass_aux_error sel parseLine lines initFPState k msg lk
    hok hget hnc herr
  simpa [initFPState] using h

/-- Program whose line of 0-based index 1 is malformed. -/
def c6_demo_lines : List (List Char) :=
  ["int 1".data, "xyz junk".data, "retsub".data]

/-- Witness for C6: the parse error of the concrete program carries the
0-based index 1 of its first malformed line. -/
theorem c6_first_parse_error_aborts_witness :
    _first_pass demo_sel demo_parse c6_demo_lines =
      .error (1, "cannot parse instruction") := by
  apply c6_first_parse_error_aborts demo_sel demo_parse c6_demo_lines 1
    "cannot parse instruction" "xyz junk".data
  · intro m hm line hline
    interval_cases m
    simp only [c6_demo_lines, List.get?] at hline
    injection hline with hline
    subst hline
    exact Or.inr ⟨_, rfl⟩
  · rfl
  · decide
  · rfl

/-! ## C10: duplicate labels — the last definition wins -/

/-- One step of the index-tracking fold behind `last_label_idx`. -/
def last_label_step (name : String) (acc : Option Nat × Nat)
    (ins : ParsedIns) : Option Nat × Nat :=
  ((match ins.kind with
    | .label nm => if nm = name then some acc.2 else acc.1
    | _ => acc.1),
   acc.2 + 1)

/-- The position of the last `Label` instruction carrying `name` in the
list, if any: the value a dictionary insert per `Label` leaves behind. -/
def last_label_idx (l : List ParsedIns) (name : String) : Option Nat :=
  (l.foldl (last_label_step name) (none, 0)).1

theorem last_label_counter (name : String) :
    ∀ (l : List ParsedIns) (a : Option Nat) (k : Nat),
    (l.foldl (last_label_step name) (a, k)).2 = k + l.length := by
  intro l
  induction l with
  | nil => intro a k; simp
  | cons x xs ih =>
    intro a k
    rw [List.foldl_cons]
    show (xs.foldl (last_label_step name) (_, k + 1)).2 = k + (x :: xs).length
    rw [ih]
    simp
    omega

theorem last_label_concat (l : List ParsedIns) (x : ParsedIns)
    (name : String) :
    last_label_idx (l ++ [x]) name =
      (match x.kind with
       | .label nm =>
         if nm = name then some l.length else last_label_idx l name
       | _ => last_label_idx l name) := by
  unfold last_label_idx
  rw [List.foldl_append, List.foldl_cons, List.foldl_nil]
  have h2 : (l.foldl (last_label_step name) (none, 0)).2 = l.length := by
    rw [last_label_counter]
    omega
  cases hx : x.kind <;>
    simp [last_label_step, hx, h2]

/-- Invariant of the `_first_pass` loop: the label dictionary maps every
name to the position of the last `Label` instruction defining it. -/
def LabelInv (s : FPState) : Prop :=
  ∀ name, s.labels name = last_label_idx s.instructions name

/-- `process_line` preserves the label invariant: each `Label` overwrites
the dictionary entry for its name, silently. -/
theorem process_line_labelInv {sel : String → String}
    {parseLine : List Char → Except String (Option ParsedIns)}
    {line : List Char} {s s' : FPState}
    (h : process_line sel parseLine line s = .ok s') (hinv : LabelInv s) :
    LabelInv s' := by
  unfold process_line at h
  by_cases hc : pyStartswith "//".data (pyStrip line) = true
  · rw [if_pos hc] at h
    injection h with h
    subst h
    exact hinv
  · rw [if_neg hc] at h
    cases hp : parseLine line with
    | error e => rw [hp] at h; cases h
    | ok oins =>
      rw [hp] at h
      cases oins with
      | none =>
        injection h with h
        subst h
        exact hinv
      | some ins0 =>
        injection h with h
        subst h
        intro name
        show (match (add_instruction_comments sel _).kind with
          | InsKind.label nm =>
            Function.update s.labels nm (some s.instructions.length)
          | _ => s.labels) name = _
        rw [last_label_concat]
        cases hx : (add_instruction_comments sel
            { (if s.instruction_comments ≠ [] then
                { ins0 with comments_before_ins := s.instruction_comments }
              else ins0) with line := s.idx + 1 }).kind with
        | label nm =>
          show Function.update s.labels nm (some s.instructions.length) name =
            if nm = name then some s.instructions.length
            else last_label_idx s.instructions name
          by_cases hnm : nm = name
          · subst hnm
            simp [Function.update]
          · rw [if_neg hnm]
            rw [Function.update_noteq (Ne.symm hnm)]
            exact hinv name
        | _ => exact hinv name

theorem first_pass_aux_labelInv (sel : String → String)
    (parseLine : List Char → Except String (Option ParsedIns)) :
    ∀ (lines : List (List Char)) (s s' : FPState),
    LabelInv s → _first_pass_aux sel parseLine lines s = .ok s' →
    LabelInv s' := by
  intro lines
  induction lines with
  | nil =>
    intro s s' hinv h
    unfold _first_pass_aux at h
    injection h with h
    subst h
    exact hinv
  | cons line rest ih =>
    intro s s' hinv h
    unfold _first_pass_aux at h
    cases hp : process_line sel parseLine line s with
    | error e => rw [hp] at h; cases h
    | ok s1 =>
      rw [hp] at h
      exact ih s1 s' (process_line_labelInv hp hinv) h

/-! ## Second pass (parse_teal.py lines 266-294) -/

/-- The jump target labels of an instruction, as `_second_pass` reads
them: one label for `B`/`BZ`/`BNZ`, the embedded label list for
`Switch`/`Match`, nothing otherwise. -/
def jump_targets : InsKind → List String
  | .b t => [t]
  | .bz t => [t]
  | .bnz t => [t]
  | .switch ts => ts
  | .matchIns ts => ts
  | _ => []

/-- Link one jump instruction (at index `i`) to each of its target labels:
`labels[target]` raises a `KeyError` when the label is undefined, else an
`add_next` entry on the jump and an `add_prev` entry on the label are
appended. -/
def second_pass_targets (labels : String → Option Nat) (i : Nat) :
    List String → List (Nat × Nat) × List (Nat × Nat) →
    Except String (List (Nat × Nat) × List (Nat × Nat))
  | [], acc => .ok acc
  | t :: rest, acc =>
    match labels t with
    | none => .error ("KeyError: " ++ t)
    | some j =>
      second_pass_targets labels i rest (acc.1 ++ [(i, j)], acc.2 ++ [(j, i)])

/-- The `_second_pass` loop over the instructions (with their indices). -/
def second_pass_aux (labels : String → Option Nat) :
    List ParsedIns → Nat → List (Nat × Nat) × List (Nat × Nat) →
    Except String (List (Nat × Nat) × List (Nat × Nat))
  | [], _, acc => .ok acc
  | ins :: rest, i0, acc =>
    match second_pass_targets labels i0 (jump_targets ins.kind) acc with
    | .error e => .error e
    | .ok acc' => second_pass_aux labels rest (i0 + 1) acc'

/-- Embedding of `_second_pass` (parse_teal.py lines 266-294): extend the
instruction-level edge lists with one bidirectional jump edge per jump
instruction and target, resolving each target through the label
dictionary. -/
def _second_pass (labels : String → Option Nat)
    (instructions : List ParsedIns) (nextE prevE : List (Nat × Nat)) :
    Except String (List (Nat × Nat) × List (Nat × Nat)) :=
  second_pass_aux labels instructions 0 (nextE, prevE)

theorem second_pass_targets_spec (labels : String → Option Nat) (i : Nat) :
    ∀ (ts : List String) (acc acc' : List (Nat × Nat) × List (Nat × Nat)),
    second_pass_targets labels i ts acc = .ok acc' →
    (∀ p, p ∈ acc.1 → p ∈ acc'.1) ∧ (∀ p, p ∈ acc.2 → p ∈ acc'.2) ∧
    (∀ t j, t ∈ ts → labels t = some j →
      ((i, j) ∈ acc'.1 ∧ (j, i) ∈ acc'.2)) := by
  intro ts
  induction ts with
  | nil =>
    intro acc acc' h
    unfold second_pass_targets at h
    injection h with h
    subst h
    exact ⟨fun p hp => hp, fun p hp => hp, by simp⟩
  | cons t rest ih =>
    intro acc acc' h
    unfold second_pass_targets at h
    cases hl : labels t with
    | none => rw [hl] at h; cases h
    | some j0 =>
      rw [hl] at h
      obtain ⟨hs1, hs2, htgt⟩ := ih _ _ h
      refine ⟨?_, ?_, ?_⟩
      · intro p hp
        exact hs1 p (by simp [hp])
      · intro p hp
        exact hs2 p (by simp [hp])
      · intro t' j ht' hj
        rcases List.mem_cons.mp ht' with rfl | ht'
        · rw [hl] at hj
          injection hj with hj
          subst hj
          exact ⟨hs1 _ (by simp), hs2 _ (by simp)⟩
        · exact htgt t' j ht' hj

theorem second_pass_aux_spec (labels : String → Option Nat) :
    ∀ (l : List ParsedIns) (i0 : Nat)
      (acc : List (Nat × Nat) × List (Nat × Nat)) (ne pe : List (Nat × Nat)),
    second_pass_aux labels l i0 acc = .ok (ne, pe) →
    (∀ p, p ∈ acc.1 → p ∈ ne) ∧ (∀ p, p ∈ acc.2 → p ∈ pe) ∧
    (∀ k ins lbl j, l.get? k = some ins → lbl ∈ jump_targets ins.kind →
      labels lbl = some j → ((i0 + k, j) ∈ ne ∧ (j, i0 + k) ∈ pe)) := by
  intro l
  induction l with
  | nil =>
    intro i0 acc ne pe h
    unfold second_pass_aux at h
    injection h with h
    subst h
    exact ⟨fun p hp => hp, fun p hp => hp, by simp⟩
  | cons ins rest ih =>
    intro i0 acc ne pe h
    unfold second_pass_aux at h
    cases hsp : second_pass_targets labels i0 (jump_targets ins.kind) acc with
    | error e => rw [hsp] at h; cases h
    | ok acc1 =>
      rw [hsp] at h
      obtain ⟨hr1, hr2, hrk⟩ := ih (i0 + 1) acc1 ne pe h
      obtain ⟨ht1, ht2, httg⟩ := second_pass_targets_spec labels i0 _ _ _ hsp
      refine ⟨fun p hp => hr1 p (ht1 p hp), fun p hp => hr2 p (ht2 p hp), ?_⟩
      intro k ins' lbl j hk hlbl hj
      cases k with
      | zero =>
        simp only [List.get?] at hk
        injection hk with hk
        subst hk
        have := httg lbl j hlbl hj
        exact ⟨by simpa using hr1 _ this.1, by simpa using hr2 _ this.2⟩
      | succ k' =>
        have := hrk k' ins' lbl j (by simpa using hk) hlbl hj
        have harith : i0 + 1 + k' = i0 + (k' + 1) := by omega
        rw [harith] at this
        exact this

/-- C10: when the same label name is defined by several `Label`
instructions, the first pass silently keeps only the last definition in
its label dictionary; every jump edge the second pass adds for a target
is therefore linked to the instruction the dictionary holds — the last
`Label` with that name — and duplicate labels cause no failure: the first
pass succeeds whenever every line is a comment or parses. -/
theorem c10_duplicate_labels_last_wins (sel : String → String)
    (parseLine : List Char → Except String (Option ParsedIns))
    (lines : List (List Char)) :
    (∀ name, first_pass_labels sel parseLine lines name =
      last_label_idx (first_pass_instructions sel parseLine lines) name) ∧
    (∀ s ne pe, _first_pass sel parseLine lines = .ok s →
      _second_pass s.labels s.instructions s.nextE s.prevE = .ok (ne, pe) →
      ∀ i ins lbl j, s.instructions.get? i = some ins →
        lbl ∈ jump_targets ins.kind → s.labels lbl = some j →
        ((i, j) ∈ ne ∧ (j, i) ∈ pe)) ∧
    ((∀ line ∈ lines, pyStartswith "//".data (pyStrip line) = true ∨
        ∃ r, parseLine line = .ok r) →
      ∃ s, _first_pass sel parseLine lines = .ok s) := by
  refine ⟨?_, ?_, ?_⟩
  · intro name
    cases hfp : _first_pass sel parseLine lines with
    | error e =>
      simp only [first_pass_labels, first_pass_instructions, hfp]
      rfl
    | ok s =>
      simp only [first_pass_labels, first_pass_instructions, hfp]
      exact first_pass_aux_labelInv sel parseLine lines initFPState s
        (fun _ => rfl) hfp name
  · intro s ne pe _ hsp i ins lbl j hi hlbl hj
    obtain ⟨_, _, hrk⟩ := second_pass_aux_spec s.labels s.instructions 0
      (s.nextE, s.prevE) ne pe hsp
    have := hrk i ins lbl j hi hlbl hj
    simpa using this
  · intro hall
    suffices h : ∀ (ls : List (List Char)) (s : FPState),
        (∀ line ∈ ls, pyStartswith "//".data (pyStrip line) = true ∨
          ∃ r, parseLine line = .ok r) →
        ∃ s', _first_pass_aux sel parseLine ls s = .ok s' by
      exact h lines initFPState hall
    intro ls
    induction ls with
    | nil => intro s _; exact ⟨s, rfl⟩
    | cons line rest ih =>
      intro s hh
      obtain ⟨s1, hs1⟩ := process_line_ok_of_lineOk s (hh line (by simp))
      obtain ⟨s', hs'⟩ := ih s1 (fun l hl => hh l (by simp [hl]))
      refine ⟨s', ?_⟩
      unfold _first_pass_aux
      rw [hs1]
      exact hs'

/-- Program defining the label `s` twice: lines 0 and 2 (0-based). -/
def c10_demo_lines : List (List Char) :=
  ["s:".data, "int 1".data, "s:".data, "b s".data]

/-- Witness for C10: on the concrete duplicate-label program, the label
dictionary equals the last-definition map (position 2), and parsing
succeeds without any failure for the duplicate. -/
theorem c10_duplicate_labels_last_wins_witness :
    (first_pass_labels demo_sel demo_parse c10_demo_lines "s" =
      last_label_idx (first_pass_instructions demo_sel demo_parse c10_demo_lines) "s" ∧
     last_label_idx (first_pass_instructions demo_sel demo_parse c10_demo_lines) "s" =
      some 2) ∧
    ∃ s, _first_pass demo_sel demo_parse c10_demo_lines = .ok s := by
  refine ⟨⟨(c10_duplicate_labels_last_wins demo_sel demo_parse c10_demo_lines).1 "s",
    by decide⟩, ?_⟩
  apply (c10_duplicate_labels_last_wins demo_sel demo_parse c10_demo_lines).2.2
  intro line hline
  fin_cases hline <;> exact Or.inr ⟨_, rfl⟩

/-! ## Subroutine discovery (parse_teal.py lines 336-360 and 526-559)

Basic blocks are identified by their index; the block-level successor
lists are a function `nextF : Nat → List Nat`.  The Python `while` loop of
`_identify_subroutine_blocks` terminates because every iteration pops a
block never visited before; it is embedded with a fuel argument, and the
theorems below show that fuel equal to the number of blocks suffices. -/

/-- The inner `for` loop of `_identify_subroutine_blocks` (parse_teal.py
lines 356-358): push, onto the stack, every successor that is neither
visited nor already on the stack.  The stack's head is its top. -/
def push_nexts (visited : List Nat) : List Nat → List Nat → List Nat
  | [], stack => stack
  | x :: xs, stack =>
    push_nexts visited xs (if x ∉ visited ∧ x ∉ stack then x :: stack else stack)

/-- The `while` loop of `_identify_subroutine_blocks` (parse_teal.py lines
352-358): pop a block, append it to the visited list, push its unseen
successors. -/
def dfs_loop (nextF : Nat → List Nat) : Nat → List Nat → List Nat → List Nat
  | 0, _, visited => visited
  | _ + 1, [], visited => visited
  | fuel + 1, bb :: stack, visited =>
    dfs_loop nextF fuel (push_nexts (visited ++ [bb]) (nextF bb) stack)
      (visited ++ [bb])

/-- Embedding of `_identify_subroutine_blocks` (parse_teal.py lines
336-360): depth-first collection of the blocks reachable from
`entry_block` through successor edges (no special treatment of `Retsub`
blocks).  `numBlocks` bounds the iteration count of the Python `while`
loop. -/
def _identify_subroutine_blocks (nextF : Nat → List Nat) (numBlocks : Nat)
    (entry_block : Nat) : List Nat :=
  dfs_loop nextF numBlocks [entry_block] []

/-- One successor edge. -/
def stepRel (nextF : Nat → List Nat) (a b : Nat) : Prop := b ∈ nextF a

/-- Reachability along successor edges. -/
def Reaches (nextF : Nat → List Nat) (a b : Nat) : Prop :=
  Relation.ReflTransGen (stepRel nextF) a b

theorem push_nexts_sub (visited : List Nat) :
    ∀ (xs stack : List Nat) (p : Nat), p ∈ stack →
      p ∈ push_nexts visited xs stack := by
  intro xs
  induction xs with
  | nil => intro stack p hp; exact hp
  | cons x rest ih =>
    intro stack p hp
    unfold push_nexts
    by_cases hx : x ∉ visited ∧ x ∉ stack
    · rw [if_pos hx]
      exact ih _ p (by simp [hp])
    · rw [if_neg hx]
      exact ih _ p hp

theorem push_nexts_mem (visited : List Nat) :
    ∀ (xs stack : List Nat) (p : Nat), p ∈ push_nexts visited xs stack →
      p ∈ xs ∨ p ∈ stack := by
  intro xs
  induction xs with
  | nil => intro stack p hp; exact Or.inr hp
  | cons x rest ih =>
    intro stack p hp
    unfold push_nexts at hp
    by_cases hx : x ∉ visited ∧ x ∉ stack
    · rw [if_pos hx] at hp
      rcases ih _ p hp with h | h
      · exact Or.inl (by simp [h])
      · rcases List.mem_cons.mp h with rfl | h
        · exact Or.inl (by simp)
        · exact Or.inr h
    · rw [if_neg hx] at hp
      rcases ih _ p hp with h | h
      · exact Or.inl (by simp [h])
      · exact Or.inr h

theorem push_nexts_covers (visited : List Nat) :
    ∀ (xs stack : List Nat) (x : Nat), x ∈ xs →
      x ∈ visited ∨ x ∈ push_nexts visited xs stack := by
  intro xs
  induction xs with
  | nil => intro stack x hx; simp at hx
  | cons y rest ih =>
    intro stack x hx
    rcases List.mem_cons.mp hx with rfl | hx
    · by_cases hv : x ∈ visited
      · exact Or.inl hv
      · right
        unfold push_nexts
        by_cases hs : x ∈ stack
        · rw [if_neg (by simp [hs])]
          exact push_nexts_sub visited rest _ x hs
        · rw [if_pos ⟨hv, hs⟩]
          exact push_nexts_sub visited rest _ x (by simp)
    · unfold push_nexts
      by_cases hc : y ∉ visited ∧ y ∉ stack
      · rw [if_pos hc]; exact ih _ x hx
      · rw [if_neg hc]; exact ih _ x hx

theorem push_nexts_nodup (visited : List Nat) :
    ∀ (xs stack : List Nat), stack.Nodup →
      (push_nexts visited xs stack).Nodup := by
  intro xs
  induction xs with
  | nil => intro stack h; exact h
  | cons x rest ih =>
    intro stack h
    unfold push_nexts
    by_cases hx : x ∉ visited ∧ x ∉ stack
    · rw [if_pos hx]
      exact ih _ (by simp [h, hx.2])
    · rw [if_neg hx]
      exact ih _ h

theorem push_nexts_disjoint (visited : List Nat) :
    ∀ (xs stack : List Nat), (∀ y ∈ stack, y ∉ visited) →
      ∀ y ∈ push_nexts visited xs stack, y ∉ visited := by
  intro xs
  induction xs with
  | nil => intro stack h; exact h
  | cons x rest ih =>
    intro stack h
    unfold push_nexts
    by_cases hx : x ∉ visited ∧ x ∉ stack
    · rw [if_pos hx]
      refine ih _ ?_
      intro y hy
      rcases List.mem_cons.mp hy with rfl | hy
      · exact hx.1
      · exact h y hy
    · rw [if_neg hx]
      exact ih _ h

/-- Soundness of the walk: everything it returns is reachable from a
stack entry or was already visited. -/
theorem dfs_loop_sound (nextF : Nat → List Nat) :
    ∀ (fuel : Nat) (stack visited : List Nat) (x : Nat),
    x ∈ dfs_loop nextF fuel stack visited →
    x ∈ visited ∨ ∃ s ∈ stack, Reaches nextF s x := by
  intro fuel
  induction fuel with
  | zero => intro stack visited x hx; exact Or.inl hx
  | succ fuel ih =>
    intro stack visited x hx
    cases stack with
    | nil => exact Or.inl hx
    | cons bb rest =>
      unfold dfs_loop at hx
      rcases ih _ _ x hx with h | ⟨s, hs, hr⟩
      · rcases List.mem_append.mp h with h | h
        · exact Or.inl h
        · right
          refine ⟨bb, by simp, ?_⟩
          simp at h
          subst h
          exact Relation.ReflTransGen.refl
      · rcases push_nexts_mem _ _ _ _ hs with h | h
        · right
          exact ⟨bb, by simp, Relation.ReflTransGen.head h hr⟩
        · right
          exact ⟨s, by simp [h], hr⟩

/-- A duplicate-free list of naturals below `n` whose length is at least
`n` contains every natural below `n`. -/
theorem mem_of_nodup_bounded (l : List Nat) (n : Nat) (hnd : l.Nodup)
    (hb : ∀ y ∈ l, y < n) (hlen : n ≤ l.length) :
    ∀ m, m < n → m ∈ l := by
  intro m hm
  have hsub : l.toFinset ⊆ Finset.range n := by
    intro y hy
    rw [Finset.mem_range]
    exact hb y (List.mem_toFinset.mp hy)
  have hcard : (Finset.range n).card ≤ l.toFinset.card := by
    rw [Finset.card_range, List.toFinset_card_of_nodup hnd]
    exact hlen
  have heq : l.toFinset = Finset.range n :=
    Finset.eq_of_subset_of_card_le hsub hcard
  have : m ∈ l.toFinset := by
    rw [heq, Finset.mem_range]
    exact hm
  exact List.mem_toFinset.mp this

/-- Completeness of the walk, given enough fuel: the invariants of the
loop (duplicate-free stack disjoint from the duplicate-free visited list,
everything below the block count, visited blocks' successors visited or
stacked) guarantee that the result contains the stack and the visited
list and is closed under successor edges. -/
theorem dfs_loop_complete (nextF : Nat → List Nat) (n : Nat)
    (hbound : ∀ v, v < n → ∀ s ∈ nextF v, s < n) :
    ∀ (fuel : Nat) (stack visited : List Nat),
    stack.Nodup → (∀ y ∈ stack, y ∉ visited) → visited.Nodup →
    (∀ y ∈ stack, y < n) → (∀ y ∈ visited, y < n) →
    (∀ v ∈ visited, ∀ s ∈ nextF v, s ∈ visited ∨ s ∈ stack) →
    n ≤ fuel + visited.length →
    (∀ y ∈ stack, y ∈ dfs_loop nextF fuel stack visited) ∧
    (∀ y ∈ visited, y ∈ dfs_loop nextF fuel stack visited) ∧
    (∀ v ∈ dfs_loop nextF fuel stack visited, ∀ s ∈ nextF v,
      s ∈ dfs_loop nextF fuel stack visited) := by
  intro fuel
  induction fuel with
  | zero =>
    intro stack visited hnds hdis hndv hbs hbv hcl hfuel
    simp only [dfs_loop]
    have hfull : ∀ m, m < n → m ∈ visited :=
      mem_of_nodup_bounded visited n hndv hbv (by omega)
    refine ⟨?_, fun y hy => hy, ?_⟩
    · intro y hy
      exact hfull y (hbs y hy)
    · intro v hv s hs
      rcases hcl v hv s hs with h | h
      · exact h
      · exact hfull s (hbs s h)
  | succ fuel ih =>
    intro stack visited hnds hdis hndv hbs hbv hcl hfuel
    cases stack with
    | nil =>
      simp only [dfs_loop]
      refine ⟨by simp, fun y hy => hy, ?_⟩
      intro v hv s hs
      rcases hcl v hv s hs with h | h
      · exact h
      · simp at h
    | cons bb rest =>
      have hbbv : bb ∉ visited := hdis bb (by simp)
      have hbbn : bb < n := hbs bb (by simp)
      have hbbrest : bb ∉ rest := (List.nodup_cons.mp hnds).1
      have hndrest : rest.Nodup := (List.nodup_cons.mp hnds).2
      have hdis' : ∀ y ∈ rest, y ∉ visited ++ [bb] := by
        intro y hy
        simp only [List.mem_append, List.mem_singleton]
        rintro (h | rfl)
        · exact hdis y (by simp [hy]) h
        · exact hbbrest hy
      have hstack' : ∀ y ∈ push_nexts (visited ++ [bb]) (nextF bb) rest,
          y ∉ visited ++ [bb] :=
        push_nexts_disjoint _ _ _ hdis'
      have hnds' : (push_nexts (visited ++ [bb]) (nextF bb) rest).Nodup :=
        push_nexts_nodup _ _ _ hndrest
      have hndv' : (visited ++ [bb]).Nodup := by
        refine List.Nodup.append hndv (by simp) ?_
        intro a ha hb
        simp only [List.mem_singleton] at hb
        subst hb
        exact hbbv ha
      have hbs' : ∀ y ∈ push_nexts (visited ++ [bb]) (nextF bb) rest, y < n := by
        intro y hy
        rcases push_nexts_mem _ _ _ _ hy with h | h
        · exact hbound bb hbbn y h
        · exact hbs y (by simp [h])
      have hbv' : ∀ y ∈ visited ++ [bb], y < n := by
        intro y hy
        rcases List.mem_append.mp hy with h | h
        · exact hbv y h
        · simp at h
          subst h
          exact hbbn
      have hcl' : ∀ v ∈ visited ++ [bb], ∀ s ∈ nextF v,
          s ∈ visited ++ [bb] ∨
            s ∈ push_nexts (visited ++ [bb]) (nextF bb) rest := by
        intro v hv s hs
        rcases List.mem_append.mp hv with h | h
        · rcases hcl v h s hs with h2 | h2
          · exact Or.inl (by simp [h2])
          · rcases List.mem_cons.mp h2 with rfl | h2
            · exact Or.inl (by simp)
            · exact Or.inr (push_nexts_sub _ _ _ s h2)
        · simp at h
          subst h
          exact push_nexts_covers _ _ _ s hs
      have hfuel' : n ≤ fuel + (visited ++ [bb]).length := by
        simp only [List.length_append, List.length_singleton]
        omega
      obtain ⟨hst, hvi, hclr⟩ := ih _ _ hnds' hstack' hndv' hbs' hbv' hcl' hfuel'
      simp only [dfs_loop]
      refine ⟨?_, ?_, hclr⟩
      · intro y hy
        rcases List.mem_cons.mp hy with rfl | hy
        · exact hvi y (by simp)
        · exact hst y (push_nexts_sub _ _ _ y hy)
      · intro y hy
        exact hvi y (by simp [hy])

/-- The recorded block set of a subroutine equals the set of blocks
reachable from its entry block along successor edges. -/
theorem identify_eq_reaches (nextF : Nat → List Nat) (n : Nat)
    (entry : Nat) (hentry : entry < n)
    (hbound : ∀ v, v < n → ∀ s ∈ nextF v, s < n) (x : Nat) :
    x ∈ _identify_subroutine_blocks nextF n entry ↔ Reaches nextF entry x := by
  constructor
  · intro hx
    rcases dfs_loop_sound nextF n [entry] [] x hx with h | ⟨s, hs, hr⟩
    · simp at h
    · simp only [List.mem_singleton] at hs
      subst hs
      exact hr
  · intro hr
    obtain ⟨hst, _, hcl⟩ := dfs_loop_complete nextF n hbound n [entry] []
      (by simp) (by simp) (by simp) (by simpa using hentry) (by simp)
      (by simp) (by omega)
    induction hr with
    | refl => exact hst entry (by simp)
    | tail hab hbc ih => exact hcl _ ih _ hbc

/-- Assign `name` to every block of `blocks` (the per-subroutine loop
`for bi in subroutine_blocks: bi.subroutine = subroutine_obj` of
parse_teal.py lines 543-544 and 550-551). -/
def assign_blocks (blocks : List Nat) (name : String)
    (acc : Nat → Option String) : Nat → Option String :=
  blocks.foldl (fun a b => Function.update a b (some name)) acc

/-- The final loop of `parse_teal` (lines 557-559): give every block whose
subroutine back-reference is still null the name of the main subroutine. -/
def fill_default (n : Nat) (name : String) (acc : Nat → Option String) :
    Nat → Option String :=
  (List.range n).foldl
    (fun a b => if a b = none then Function.update a b (some name) else a) acc

/-- The subroutine back-reference assignment of `parse_teal` (lines
526-559): blocks of each discovered subroutine's walk get that name (in
key order), then the walk from block 0 gets `__main__`, then every
still-unassigned block gets `__main__`. -/
def assign_subroutines (nextF : Nat → List Nat) (n : Nat)
    (entries : List (String × Nat)) : Nat → Option String :=
  fill_default n "__main__"
    (assign_blocks (_identify_subroutine_blocks nextF n 0) "__main__"
      (entries.foldl
        (fun acc e =>
          assign_blocks (_identify_subroutine_blocks nextF n e.2) e.1 acc)
        (fun _ => none)))

theorem assign_blocks_eq (blocks : List Nat) (name : String) :
    ∀ (acc : Nat → Option String) (x : Nat),
    assign_blocks blocks name acc x =
      if x ∈ blocks then some name else acc x := by
  induction blocks with
  | nil => intro acc x; simp [assign_blocks]
  | cons b bs ih =>
    intro acc x
    show assign_blocks bs name (Function.update acc b (some name)) x = _
    rw [ih]
    by_cases hxbs : x ∈ bs
    · simp [hxbs]
    · by_cases hxb : x = b
      · subst hxb
        simp [hxbs, Function.update]
      · simp [hxbs, hxb, Function.update_noteq hxb]

theorem fill_default_aux (name : String) :
    ∀ (l : List Nat) (acc : Nat → Option String) (x : Nat),
    (l.foldl
      (fun a b => if a b = none then Function.update a b (some name) else a)
      acc) x =
      if x ∈ l ∧ acc x = none then some name else acc x := by
  intro l
  induction l with
  | nil => intro acc x; simp
  | cons b bs ih =>
    intro acc x
    rw [List.foldl_cons, ih]
    by_cases hab : acc b = none
    · rw [if_pos hab]
      by_cases hxb : x = b
      · subst hxb
        simp [Function.update, hab]
      · rw [Function.update_noteq hxb]
        by_cases hxbs : x ∈ bs
        · simp [hxbs, hxb]
        · simp [hxbs, hxb]
    · rw [if_neg hab]
      by_cases hxb : x = b
      · subst hxb
        simp [hab]
      · simp [hxb]

theorem fill_default_eq (n : Nat) (name : String)
    (acc : Nat → Option String) (x : Nat) :
    fill_default n name acc x =
      if x < n ∧ acc x = none then some name else acc x := by
  unfold fill_default
  rw [fill_default_aux]
  simp [List.mem_range]

theorem assign_entries_not_mem (nextF : Nat → List Nat) (n : Nat) :
    ∀ (entries : List (String × Nat)) (acc : Nat → Option String) (b : Nat),
    (∀ e ∈ entries, b ∉ _identify_subroutine_blocks nextF n e.2) →
    (entries.foldl
      (fun acc e =>
        assign_blocks (_identify_subroutine_blocks nextF n e.2) e.1 acc)
      acc) b = acc b := by
  intro entries
  induction entries with
  | nil => intro acc b _; rfl
  | cons e rest ih =>
    intro acc b hb
    rw [List.foldl_cons, ih _ b (fun e' he' => hb e' (by simp [he']))]
    rw [assign_blocks_eq]
    rw [if_neg (hb e (by simp))]

/-- C4: for every subroutine entry the recorded block set equals the set
of blocks reachable from the entry along successor edges (the walk does
not stop anywhere, `Retsub` blocks included); after the assignment phase
of `parse_teal` every block has a non-null subroutine back-reference, and
every block claimed by no subroutine's walk and not in the walk from
block 0 is assigned the synthetic `__main__` subroutine. -/
theorem c4_subroutine_discovery (nextF : Nat → List Nat) (n : Nat)
    (entries : List (String × Nat))
    (hbound : ∀ v, v < n → ∀ s ∈ nextF v, s < n) :
    (∀ e, e < n → ∀ x,
      (x ∈ _identify_subroutine_blocks nextF n e ↔ Reaches nextF e x)) ∧
    (∀ b, b < n → assign_subroutines nextF n entries b ≠ none) ∧
    (∀ b, b < n →
      (∀ e ∈ entries, b ∉ _identify_subroutine_blocks nextF n e.2) →
      b ∉ _identify_subroutine_blocks nextF n 0 →
      assign_subroutines nextF n entries b = some "__main__") := by
  refine ⟨?_, ?_, ?_⟩
  · intro e he x
    exact identify_eq_reaches nextF n e he hbound x
  · intro b hb
    unfold assign_subroutines
    rw [fill_default_eq]
    by_cases hc : (assign_blocks (_identify_subroutine_blocks nextF n 0)
        "__main__"
        (entries.foldl
          (fun acc e =>
            assign_blocks (_identify_subroutine_blocks nextF n e.2) e.1 acc)
          (fun _ => none))) b = none
    · rw [if_pos ⟨hb, hc⟩]
      simp
    · rw [if_neg (by simp [hc])]
      exact hc
  · intro b hb hsubs hmain
    unfold assign_subroutines
    rw [fill_default_eq]
    rw [assign_blocks_eq, if_neg hmain, assign_entries_not_mem nextF n entries _ b hsubs]
    simp [hb]

/-- Concrete successor function on four blocks: `0 → 1 → 3`, `2 → 3`;
block 2 is unreachable from block 0. -/
def c4_demo_next : Nat → List Nat
  | 0 => [1]
  | 1 => [3]
  | 2 => [3]
  | _ => []

/-- Witness for C4 on the concrete graph: block 3 is in the walk of the
subroutine entered at block 2; every block gets a subroutine; block 2,
claimed by no subroutine walk (there are no entries) and absent from the
walk from block 0, is assigned `__main__`. -/
theorem c4_subroutine_discovery_witness :
    (3 ∈ _identify_subroutine_blocks c4_demo_next 4 2) ∧
    assign_subroutines c4_demo_next 4 [("s", 2)] 1 ≠ none ∧
    assign_subroutines c4_demo_next 4 [] 2 = some "__main__" := by
  refine ⟨?_, ?_, ?_⟩
  · exact ((c4_subroutine_discovery c4_demo_next 4 [("s", 2)]
      (by decide)).1 2 (by decide) 3).mpr
      (Relation.ReflTransGen.single (show (3 : Nat) ∈ c4_demo_next 2 by decide))
  · exact (c4_subroutine_discovery c4_demo_next 4 [("s", 2)]
      (by decide)).2.1 1 (by decide)
  · exact (c4_subroutine_discovery c4_demo_next 4 []
      (by decide)).2.2 2 (by decide) (by simp) (by decide)

/-! ## `_add_basic_blocks_idx` (parse_teal.py lines 320-333) -/

/-- A basic block as `_add_basic_blocks_idx` sees it: the line number of
its entry instruction (the sort key `x.entry_instr.line`) and its mutable
`idx` attribute. -/
structure BBRec where
  entryLine : Nat
  idx : Nat := 0
  deriving DecidableEq, Repr

/-- The `for i, bb in enumerate(bbs): bb.idx = i` loop, starting at `i`. -/
def set_idx_from : Nat → List BBRec → List BBRec
  | _, [] => []
  | i, b :: rest => { b with idx := i } :: set_idx_from (i + 1) rest

/-- Embedding of `_add_basic_blocks_idx` (parse_teal.py lines 320-333):
sort the blocks by the line number of their entry instruction (Python's
`sorted` is a stable sort, modelled by `insertionSort`) and assign
`idx = 0, 1, 2, …` in order. -/
def _add_basic_blocks_idx (bbs : List BBRec) : List BBRec :=
  set_idx_from 0
    (List.insertionSort (fun a b => a.entryLine ≤ b.entryLine) bbs)

instance : IsTotal BBRec (fun a b => a.entryLine ≤ b.entryLine) :=
  ⟨fun a b => Nat.le_total a.entryLine b.entryLine⟩

instance : IsTrans BBRec (fun a b => a.entryLine ≤ b.entryLine) :=
  ⟨fun _ _ _ hab hbc => Nat.le_trans hab hbc⟩

theorem set_idx_from_length : ∀ (k : Nat) (l : List BBRec),
    (set_idx_from k l).length = l.length := by
  intro k l
  induction l generalizing k with
  | nil => rfl
  | cons b rest ih => simp [set_idx_from, ih]

theorem set_idx_from_map_entryLine : ∀ (k : Nat) (l : List BBRec),
    (set_idx_from k l).map BBRec.entryLine = l.map BBRec.entryLine := by
  intro k l
  induction l generalizing k with
  | nil => rfl
  | cons b rest ih => simp [set_idx_from, ih]

theorem set_idx_from_get : ∀ (l : List BBRec) (k i : Nat)
    (h : i < (set_idx_from k l).length),
    ((set_idx_from k l).get ⟨i, h⟩).idx = k + i := by
  intro l
  induction l with
  | nil => intro k i h; simp [set_idx_from] at h
  | cons b rest ih =>
    intro k i h
    cases i with
    | zero => rfl
    | succ i' =>
      show ((set_idx_from (k + 1) rest).get ⟨i', _⟩).idx = k + (i' + 1)
      rw [ih (k + 1) i']
      omega

/-- C5: `_add_basic_blocks_idx` returns the block list sorted by entry
instruction line number (strictly increasing when the entry lines are
distinct, which parsing guarantees since each instruction carries a unique
line), with `blocks[i].idx = i` at every position and the length
preserved — so block indices are a contiguous prefix of the naturals. -/
theorem c5_add_basic_blocks_idx (bbs : List BBRec) :
    List.Pairwise (fun a b => a.entryLine ≤ b.entryLine)
      (_add_basic_blocks_idx bbs) ∧
    (∀ (i : Nat) (h : i < (_add_basic_blocks_idx bbs).length),
      ((_add_basic_blocks_idx bbs).get ⟨i, h⟩).idx = i) ∧
    (_add_basic_blocks_idx bbs).length = bbs.length ∧
    ((bbs.map BBRec.entryLine).Nodup →
      List.Pairwise (fun a b => a.entryLine < b.entryLine)
        (_add_basic_blocks_idx bbs)) := by
  have hsorted : List.Pairwise (fun a b => a.entryLine ≤ b.entryLine)
      (List.insertionSort (fun a b => a.entryLine ≤ b.entryLine) bbs) :=
    List.sorted_insertionSort _ bbs
  have hmap : (_add_basic_blocks_idx bbs).map BBRec.entryLine =
      (List.insertionSort (fun a b => a.entryLine ≤ b.entryLine) bbs).map
        BBRec.entryLine := by
    unfold _add_basic_blocks_idx
    rw [set_idx_from_map_entryLine]
  have hres : List.Pairwise (fun a b => a.entryLine ≤ b.entryLine)
      (_add_basic_blocks_idx bbs) := by
    have h1 : List.Pairwise (fun a b : Nat => a ≤ b)
        ((_add_basic_blocks_idx bbs).map BBRec.entryLine) := by
      rw [hmap, List.pairwise_map]
      exact hsorted
    exact List.pairwise_map.mp h1
  refine ⟨hres, ?_, ?_, ?_⟩
  · intro i h
    unfold _add_basic_blocks_idx at h ⊢
    rw [set_idx_from_get]
    omega
  · unfold _add_basic_blocks_idx
    rw [set_idx_from_length]
    exact (List.perm_insertionSort _ bbs).length_eq
  · intro hnd
    have hperm : List.Perm
        ((List.insertionSort (fun a b => a.entryLine ≤ b.entryLine)
          bbs).map BBRec.entryLine)
        (bbs.map BBRec.entryLine) :=
      (List.perm_insertionSort _ bbs).map BBRec.entryLine
    have hnd2 : ((_add_basic_blocks_idx bbs).map BBRec.entryLine).Nodup := by
      rw [hmap]
      exact hperm.nodup_iff.mpr hnd
    have hne : List.Pairwise (fun a b : BBRec => a.entryLine ≠ b.entryLine)
        (_add_basic_blocks_idx bbs) := by
      have h2 : List.Pairwise (fun a b : Nat => a ≠ b)
          ((_add_basic_blocks_idx bbs).map BBRec.entryLine) := hnd2
      exact List.pairwise_map.mp h2
    exact (hres.and hne).imp (fun h => lt_of_le_of_ne h.1 h.2)

/-- Concrete blocks with entry lines 5, 2, 9. -/
def c5_demo_bbs : List BBRec :=
  [{ entryLine := 5 }, { entryLine := 2 }, { entryLine := 9 }]

/-- Witness for C5: on the concrete block list the result is strictly
sorted by entry line and position 1 holds index 1. -/
theorem c5_add_basic_blocks_idx_witness :
    List.Pairwise (fun a b => a.entryLine < b.entryLine)
      (_add_basic_blocks_idx c5_demo_bbs) ∧
    ((_add_basic_blocks_idx c5_demo_bbs).get
      ⟨1, by decide⟩).idx = 1 := by
  refine ⟨(c5_add_basic_blocks_idx c5_demo_bbs).2.2.2 (by decide), ?_⟩
  exact (c5_add_basic_blocks_idx c5_demo_bbs).2.1 1 (by decide)

/-! ## Third pass: `create_bb` (parse_teal.py lines 101-165)

Blocks are identified by creation order (Python object identity); each
block is the list of its instruction indices.  `nextCount i` is
`len(ins.next)` after the first two passes. -/

/-- The state of the `create_bb` loop: the closed blocks, the block under
construction (already appended to `all_bbs` in Python, so the final block
list is `closed ++ [cur]`), and the block-level default edge lists. -/
structure CBState where
  closed : List (List Nat)
  cur : List Nat
  bnext : List (Nat × Nat)
  bprev : List (Nat × Nat)

/-- Is the instruction at the given position a `Label`? -/
def isLabelKind : Option InsKind → Bool
  | some (.label _) => true
  | _ => false

/-- Is the instruction at the given position a `Callsub`? -/
def isCallsubKind : Option InsKind → Bool
  | some (.callsub _) => true
  | _ => false

/-- Is the instruction at the given position a `B`? -/
def isBKind : Option InsKind → Bool
  | some (.b _) => true
  | _ => false

/-- One iteration of the `create_bb` loop for instruction index `i`
(parse_teal.py lines 128-165): split before a `Label` hitting a non-empty
block (with a default edge), append the instruction, split after an
instruction with more than one next or a `Callsub` (with a default edge)
or after an instruction with no next or a `B` (without an edge) — in the
latter two cases only when `i` is not the last instruction. -/
def create_bb_step (instructions : List ParsedIns) (nextCount : Nat → Nat)
    (last : Nat) (st : CBState) (i : Nat) : CBState :=
  let st :=
    if isLabelKind (kindAt instructions i) ∧ st.cur ≠ [] then
      { closed := st.closed ++ [st.cur]
        cur := []
        bnext := st.bnext ++ [(st.closed.length, st.closed.length + 1)]
        bprev := st.bprev ++ [(st.closed.length + 1, st.closed.length)] }
    else st
  let st := { st with cur := st.cur ++ [i] }
  if nextCount i > 1 ∨ isCallsubKind (kindAt instructions i) then
    if i = last then st
    else
      { closed := st.closed ++ [st.cur]
        cur := []
        bnext := st.bnext ++ [(st.closed.length, st.closed.length + 1)]
        bprev := st.bprev ++ [(st.closed.length + 1, st.closed.length)] }
  else if nextCount i = 0 ∨ isBKind (kindAt instructions i) then
    if i = last then st
    else
      { closed := st.closed ++ [st.cur]
        cur := []
        bnext := st.bnext
        bprev := st.bprev }
  else st

/-- Embedding of `create_bb` (parse_teal.py lines 101-165): an initial
empty block, then the loop over the instructions; returns the block list
(instruction indices per block, in creation order) and the block-level
default edge lists. -/
def create_bb (instructions : List ParsedIns) (nextCount : Nat → Nat) :
    List (List Nat) × List (Nat × Nat) × List (Nat × Nat) :=
  let st := (List.range instructions.length).foldl
    (create_bb_step instructions nextCount (instructions.length - 1))
    { closed := [], cur := [], bnext := [], bprev := [] }
  (st.closed ++ [st.cur], st.bnext, st.bprev)

/-! ## Fourth pass: `_fourth_pass` (parse_teal.py lines 297-317) -/

/-- The successor list of instruction `i` (the order of `add_next` calls). -/
def ins_next_list (nextE : List (Nat × Nat)) (i : Nat) : List Nat :=
  (nextE.filter (fun p => p.1 = i)).map Prod.snd

/-- The `.bb` back-reference of instruction `i`: the creation index of the
block holding it (instructions belong to at most one block). -/
def bbOfIns (blocks : List (List Nat)) (i : Nat) : Option Nat :=
  blocks.findIdx? (fun blk => decide (i ∈ blk))

/-- The inner loop of `_fourth_pass` for block `b`: for each jump
successor of the exit instruction, add a bidirectional jump edge to the
successor's block unless that block is already a successor of `b`; the
Python `assert bb not in next_bb.prev` is an `AssertionError` when
violated. -/
def fourth_pass_targets (blocks : List (List Nat)) (b : Nat) :
    List Nat → List (Nat × Nat) × List (Nat × Nat) →
    Except String (List (Nat × Nat) × List (Nat × Nat))
  | [], acc => .ok acc
  | nIns :: rest, acc =>
    match bbOfIns blocks nIns with
    | none => .error "AttributeError: instruction has no block"
    | some nb =>
      if (b, nb) ∈ acc.1 then fourth_pass_targets blocks b rest acc
      else if (nb, b) ∈ acc.2 then .error "AssertionError"
      else fourth_pass_targets blocks b rest
        (acc.1 ++ [(b, nb)], acc.2 ++ [(nb, b)])

/-- The `_fourth_pass` loop over the blocks (by creation index).  Reading
the exit instruction of an empty block is an `IndexError`
(`bb.exit_instr` indexes `self._instructions[-1]`). -/
def fourth_pass_aux (blocks : List (List Nat)) (nextE : List (Nat × Nat)) :
    List (List Nat) → Nat → List (Nat × Nat) × List (Nat × Nat) →
    Except String (List (Nat × Nat) × List (Nat × Nat))
  | [], _, acc => .ok acc
  | blk :: rest, b, acc =>
    match blk.getLast? with
    | none => .error "IndexError: list index out of range"
    | some exitIns =>
      match fourth_pass_targets blocks b (ins_next_list nextE exitIns) acc with
      | .error e => .error e
      | .ok acc' => fourth_pass_aux blocks nextE rest (b + 1) acc'

/-- Embedding of `_fourth_pass` (parse_teal.py lines 297-317), starting
from the block-level default edges `create_bb` produced. -/
def _fourth_pass (blocks : List (List Nat)) (nextE : List (Nat × Nat))
    (bnext bprev : List (Nat × Nat)) :
    Except String (List (Nat × Nat) × List (Nat × Nat)) :=
  fourth_pass_aux blocks nextE blocks 0 (bnext, bprev)

/-! ## `parse_teal` (parse_teal.py lines 478-575) -/

/-- How a run of `parse_teal` fails: a reported parse error (printed and
`sys.exit(1)`, carrying the 0-based line index and message) or an
unhandled Python exception. -/
inductive TealError where
  | parseErr (lineIdx : Nat) (msg : String)
  | exception (msg : String)
  deriving DecidableEq, Repr

/-- Entry-instruction line of a block (`x.entry_instr.line`, the sort key
of `_add_basic_blocks_idx`); an `IndexError` for an empty block. -/
def block_entry_line (instructions : List ParsedIns) (blk : List Nat) :
    Except String Nat :=
  match blk.head? with
  | none => .error "IndexError: list index out of range"
  | some i =>
    match instructions.get? i with
    | none => .error "IndexError: list index out of range"
    | some ins => .ok ins.line

/-- Entry-instruction lines of all blocks. -/
def block_entry_lines (instructions : List ParsedIns) :
    List (List Nat) → Except String (List Nat)
  | [] => .ok []
  | blk :: rest =>
    match block_entry_line instructions blk with
    | .error e => .error e
    | .ok n =>
      match block_entry_lines instructions rest with
      | .error e => .error e
      | .ok ns => .ok (n :: ns)

/-- Pipeline form of `_add_basic_blocks_idx` (parse_teal.py lines
320-333) with blocks kept under their creation identity: returns the
creation indices in entry-line-sorted order; a block's assigned `idx` is
its position in this order. -/
def add_basic_blocks_idx_order (instructions : List ParsedIns)
    (blocks : List (List Nat)) : Except String (List Nat) :=
  match block_entry_lines instructions blocks with
  | .error e => .error e
  | .ok keys =>
    .ok ((List.insertionSort (fun a b : Nat × Nat => a.2 ≤ b.2)
      ((List.range blocks.length).zip keys)).map Prod.fst)

/-- Resolution of each discovered subroutine name to its entry block
(parse_teal.py lines 527-529): `labels[name]` may raise a `KeyError`, and
the label instruction's `.bb` is the entry block. -/
def resolve_entries (labels : String → Option Nat)
    (blocks : List (List Nat)) : List String → Except String (List (String × Nat))
  | [] => .ok []
  | nm :: rest =>
    match labels nm with
    | none => .error ("KeyError: " ++ nm)
    | some labelIdx =>
      match bbOfIns blocks labelIdx with
      | none => .error "AttributeError: label instruction has no block"
      | some eb =>
        match resolve_entries labels blocks rest with
        | .error e => .error e
        | .ok es => .ok ((nm, eb) :: es)

/-- The constants of the `intcblock` instruction at index `i`. -/
def intcblock_constants (instructions : List ParsedIns) (i : Nat) :
    Option (List Nat) :=
  match kindAt instructions i with
  | some (.intcblock cs) => some cs
  | _ => none

/-- The constants of the `bytecblock` instruction at index `i`. -/
def bytecblock_constants (instructions : List ParsedIns) (i : Nat) :
    Option (List String) :=
  match kindAt instructions i with
  | some (.bytecblock cs) => some cs
  | _ => none

/-- The program object `parse_teal` returns (the `Teal` class): version,
mode, instructions, the block list (by creation identity) with its
line-sorted order (a block's `idx` is its position in `bbs_order`), the
block-level edges, the per-block subroutine back-references, the
discovered subroutine names, the optionally resolved constant pools and
the contract name.  The dataflow analyses (`tealer/analyses/*`, outside
the verification sources) only fill per-block result slots and are not
modelled. -/
structure Teal where
  version : Nat
  mode : ContractType
  instructions : List ParsedIns
  bbs_order : List Nat
  blocks : List (List Nat)
  blockNext : List (Nat × Nat)
  blockPrev : List (Nat × Nat)
  subroutineOf : Nat → Option String
  subroutine_names : List String
  int_constants : Option (List Nat)
  byte_constants : Option (List String)
  contract_name : String

/-- Embedding of `parse_teal` (parse_teal.py lines 478-575), following the
source order: first pass (parse error aborts), second pass (`KeyError` on
an undefined jump target), `create_bb`, `_fourth_pass` (`IndexError` on an
empty block's exit instruction), `_add_basic_blocks_idx` (`IndexError` on
an empty block's entry instruction), mode detection, the unconditional
`instructions[0]` pragma check (`IndexError` when no instruction parsed),
`_verify_version` (diagnostics only, result ignored), subroutine
discovery and assignment, `__main__` walk from the first sorted block,
default assignment of the remaining blocks, and constant-pool resolution. -/
def parse_teal (sel : String → String)
    (parseLine : List Char → Except String (Option ParsedIns))
    (source_code : List Char) (contract_name : String) :
    Except TealError Teal :=
  match _first_pass sel parseLine (pySplitlines source_code) with
  | .error pe => .error (.parseErr pe.1 pe.2)
  | .ok st =>
    match _second_pass st.labels st.instructions st.nextE st.prevE with
    | .error e => .error (.exception e)
    | .ok edges =>
      let nextCount : Nat → Nat := fun i => (ins_next_list edges.1 i).length
      let cbb := create_bb st.instructions nextCount
      match _fourth_pass cbb.1 edges.1 cbb.2.1 cbb.2.2 with
      | .error e => .error (.exception e)
      | .ok bedges =>
        match add_basic_blocks_idx_order st.instructions cbb.1 with
        | .error e => .error (.exception e)
        | .ok order =>
          let mode := _detect_contract_type st.instructions
          match st.instructions.get? 0 with
          | none => .error (.exception "IndexError: list index out of range")
          | some ins0 =>
            let version := match ins0.kind with
              | .pragma v => v
              | _ => 1
            let _diags := _verify_version st.instructions version
            match resolve_entries st.labels cbb.1 st.subNames with
            | .error e => .error (.exception e)
            | .ok entries =>
              let n := cbb.1.length
              let bNextF : Nat → List Nat := fun b => ins_next_list bedges.1 b
              let afterSubs := entries.foldl
                (fun acc e =>
                  assign_blocks (_identify_subroutine_blocks bNextF n e.2)
                    e.1 acc)
                (fun _ => none)
              match order.get? 0 with
              | none => .error (.exception "IndexError: list index out of range")
              | some mainEntry =>
                let afterMain := assign_blocks
                  (_identify_subroutine_blocks bNextF n mainEntry)
                  "__main__" afterSubs
                .ok { version := version
                      mode := mode
                      instructions := st.instructions
                      bbs_order := order
                      blocks := cbb.1
                      blockNext := bedges.1
                      blockPrev := bedges.2
                      subroutineOf := fill_default n "__main__" afterMain
                      subroutine_names := st.subNames
                      int_constants := match st.intcblock_ins with
                        | [i] =>
                          if bbOfIns cbb.1 i = some mainEntry then
                            intcblock_constants st.instructions i
                          else none
                        | _ => none
                      byte_constants := match st.bytecblock_ins with
                        | [i] =>
                          if bbOfIns cbb.1 i = some mainEntry then
                            bytecblock_constants st.instructions i
                          else none
                        | _ => none
                      contract_name := contract_name }

/-- A run of `_first_pass` over lines that are all comments or blank
succeeds and parses no instruction. -/
theorem first_pass_all_blank (sel : String → String)
    (parseLine : List Char → Except String (Option ParsedIns))
    (lines : List (List Char))
    (hall : ∀ line ∈ lines, pyStartswith "//".data (pyStrip line) = true ∨
      parseLine line = .ok none) :
    ∃ st, _first_pass sel parseLine lines = .ok st ∧ st.instructions = [] := by
  suffices h : ∀ (ls : List (List Char)) (s : FPState),
      (∀ line ∈ ls, pyStartswith "//".data (pyStrip line) = true ∨
        parseLine line = .ok none) →
      ∃ s', _first_pass_aux sel parseLine ls s = .ok s' ∧
        s'.instructions = s.instructions by
    obtain ⟨s', h1, h2⟩ := h lines initFPState hall
    exact ⟨s', h1, h2⟩
  intro ls
  induction ls with
  | nil => intro s _; exact ⟨s, rfl, rfl⟩
  | cons line rest ih =>
    intro s hh
    by_cases hc : pyStartswith "//".data (pyStrip line) = true
    · obtain ⟨s', h1, h2⟩ := ih
        { s with
          idx := s.idx + 1
          instruction_comments := s.instruction_comments ++ [String.mk line] }
        (fun l hl => hh l (by simp [hl]))
      refine ⟨s', ?_, h2⟩
      unfold _first_pass_aux process_line
      rw [if_pos hc]
      exact h1
    · have hb : parseLine line = .ok none := by
        rcases hh line (by simp) with h | h
        · exact absurd h hc
        · exact h
      obtain ⟨s', h1, h2⟩ := ih { s with idx := s.idx + 1 }
        (fun l hl => hh l (by simp [hl]))
      refine ⟨s', ?_, h2⟩
      unfold _first_pass_aux process_line
      rw [if_neg hc, hb]
      exact h1

/-- C9: `parse_teal` is partial on inputs that parse to no instruction:
for every source whose lines are all blank or comments, the pipeline hits
an unconditional index into an empty list (first, the empty initial
block's exit instruction in the fourth pass; the sort key and the pragma
check index just the same way) and fails with an unhandled `IndexError` —
an exception, not a reported parse error, and no program object. -/
theorem c9_parse_teal_exception_on_no_instructions (sel : String → String)
    (parseLine : List Char → Except String (Option ParsedIns))
    (source_code : List Char) (contract_name : String)
    (hall : ∀ line ∈ pySplitlines source_code,
      pyStartswith "//".data (pyStrip line) = true ∨
        parseLine line = .ok none) :
    parse_teal sel parseLine source_code contract_name =
      .error (.exception "IndexError: list index out of range") := by
  obtain ⟨st, hok, hins⟩ :=
    first_pass_all_blank sel parseLine (pySplitlines source_code) hall
  unfold parse_teal
  rw [hok]
  show (match _second_pass st.labels st.instructions st.nextE st.prevE with
    | .error e => Except.error (TealError.exception e)
    | .ok edges => _) = _
  rw [hins]
  rfl

/-- Witness for C9: a concrete source of one comment line and one blank
line makes `parse_teal` raise the `IndexError`. -/
theorem c9_parse_teal_exception_witness :
    parse_teal demo_sel demo_parse "// only a comment\n\n".data "c" =
      .error (.exception "IndexError: list index out of range") := by
  apply c9_parse_teal_exception_on_no_instructions
  intro line hline
  rw [show pySplitlines "// only a comment\n\n".data =
    ["// only a comment".data, []] from by decide] at hline
  rcases List.mem_cons.mp hline with rfl | hline
  · left
    decide
  · rcases List.mem_cons.mp hline with rfl | hline
    · right
      rfl
    · simp at hline

end TealerSpec
